import Mathlib

/-!
Verification of the poe-price-backend repository.

The repository contains an Express backend (`src/index.js`, first document)
together with two further iterations of the same design (the second document
of `src/index.js` and `src/unnamed/part_000`).  This file gives a shallow
embedding of the pure core of that code:

* `buildSearchQuery`            - query construction (src/index.js, first document)
* `nameTypeSelection`           - the name/type selection block of the
                                  `buildSearchQuery` variant in src/unnamed/part_000
* `parsePrice`                  - listing-price extraction (src/index.js)
* `calculatePriceStatsLowest`,
  `calculatePriceStatsMedian`   - the two aggregation modes (src/index.js)
* `performSearchWithRetries`    - the search retry/relaxation loop (src/index.js),
                                  modelled as a fuel-indexed recursion over an
                                  abstract upstream response stream, returning the
                                  trace of attempted queries
* `handleAfterSearch`           - the part of the POST /price handler that runs
                                  after the search stage (src/index.js), with the
                                  number of listing-fetch calls made returned
                                  explicitly

JavaScript numbers are modelled as `ℚ` (the arithmetic performed by the code -
comparisons, a two-element average, `Math.round`, `Math.floor`/`Math.ceil` of
`n*0.1`/`n*0.9` - is exact on the rationals for all inputs of interest).
JavaScript `array.sort` with an ascending numeric comparator is a stable sort;
since any two entries of the sorted lists below that compare equal are equal
records, the result is independent of the sorting algorithm and is modelled by
`List.insertionSort`.  Fallible field access is modelled with `Option`.
-/

namespace Poe

/-! ## Small JavaScript helpers -/

/-- `Math.round` for non-negative arguments: round half up, `⌊q + 1/2⌋`. -/
def jsRound (q : ℚ) : ℤ := ⌊q + 1/2⌋

/-- JavaScript truthiness of an optional string field: `undefined` and the
empty string are both falsy.  `presentStr s` is `s` if it is a truthy string
and `none` otherwise. -/
def presentStr (s : Option String) : Option String :=
  match s with
  | some v => if v = "" then none else some v
  | none => none

/-- Lower-casing of an ASCII character (all strings compared by the code are
ASCII, so this agrees with JavaScript `toLowerCase`). -/
def lowerChar (c : Char) : Char :=
  if 'A' ≤ c ∧ c ≤ 'Z' then Char.ofNat (c.toNat + 32) else c

/-- `String.prototype.toLowerCase` on ASCII strings. -/
def lowerStr (s : String) : String := String.mk (s.toList.map lowerChar)

/-- Whitespace stripped by `String.prototype.trim` (the whitespace kinds that
occur in the data of interest). -/
def isWsChar (c : Char) : Bool :=
  c = ' ' ∨ c = '\t' ∨ c = '\n' ∨ c = '\r'

/-- `String.prototype.trim`: strip whitespace from both ends. -/
def jsTrim (s : String) : String :=
  String.mk (((s.toList.dropWhile isWsChar).reverse.dropWhile isWsChar).reverse)

/-- Does the character list `l` start with the character list `p`? -/
def startsWithL : List Char → List Char → Bool
  | _, [] => true
  | [], _ :: _ => false
  | a :: as, b :: bs => a = b && startsWithL as bs

/-- Does the character list `l` contain `p` as a contiguous segment? -/
def containsL : List Char → List Char → Bool
  | [], p => p.isEmpty
  | l@(_ :: t), p => startsWithL l p || containsL t p

/-- `String.prototype.includes`: substring test. -/
def jsIncludes (s pat : String) : Bool := containsL s.toList pat.toList

/-- `String.prototype.startsWith`. -/
def jsStartsWith (s pat : String) : Bool := startsWithL s.toList pat.toList

/-- First-occurrence deduplication of a list of strings, skipping everything
in `seen` (models insertion into a JavaScript object / `Set`). -/
def dedupFirst : List String → List String → List String
  | [], _ => []
  | x :: xs, seen =>
    if x ∈ seen then dedupFirst xs seen else x :: dedupFirst xs (x :: seen)

/-! ### `encodeURIComponent` -/

/-- Characters left unescaped by `encodeURIComponent`. -/
def isUnreservedChar (c : Char) : Bool :=
  ('A' ≤ c ∧ c ≤ 'Z') ∨ ('a' ≤ c ∧ c ≤ 'z') ∨ ('0' ≤ c ∧ c ≤ '9') ∨
    c = '-' ∨ c = '_' ∨ c = '.' ∨ c = '!' ∨ c = '~' ∨ c = '*' ∨
    c = Char.ofNat 39 ∨ c = '(' ∨ c = ')'

/-- UTF-8 encoding of a code point, as a list of byte values. -/
def utf8Bytes (n : Nat) : List Nat :=
  if n < 128 then [n]
  else if n < 2048 then [192 + n / 64, 128 + n % 64]
  else if n < 65536 then [224 + n / 4096, 128 + (n / 64) % 64, 128 + n % 64]
  else [240 + n / 262144, 128 + (n / 4096) % 64, 128 + (n / 64) % 64, 128 + n % 64]

/-- Upper-case hexadecimal digit for a value below 16. -/
def hexDigit (n : Nat) : Char :=
  if n < 10 then Char.ofNat (48 + n) else Char.ofNat (55 + n)

/-- Percent-encoding of one byte value. -/
def percentByte (b : Nat) : String :=
  String.mk ['%', hexDigit (b / 16), hexDigit (b % 16)]

/-- JavaScript `encodeURIComponent`. -/
def encodeURIComponent (s : String) : String :=
  String.join (s.toList.map (fun c =>
    if isUnreservedChar c then String.mk [c]
    else String.join ((utf8Bytes c.toNat).map percentByte)))

/-! ## Data model -/

/-- One item modifier as supplied to the backend: an optional namespaced stat
identifier and the optional display text. -/
structure Mod where
  statId : Option String
  text : Option String
deriving DecidableEq, Repr

/-- The item description consumed by `buildSearchQuery` (the fields the code
reads; numbers as `ℚ`, optional strings as `Option String`). -/
structure ItemDescription where
  name : Option String
  baseType : Option String
  rarity : Option String
  itemLevel : Option ℚ
  quality : Option ℚ
  links : Option ℚ
  influences : List String
  implicits : List Mod
  explicits : List Mod
deriving DecidableEq, Repr

/-- One price observation `{ amount, currency }`. -/
structure PriceObs where
  amount : ℚ
  currency : String
deriving DecidableEq, Repr

/-- The nested `listing.price` object of a raw listing; `amount = none` models
a missing or non-numeric amount (`Number(...)` evaluating to `NaN`). -/
structure RawPrice where
  amount : Option ℚ
  currency : Option String
deriving DecidableEq, Repr

/-- A raw listing record as returned by the fetch endpoint; only the
`listing.price` path is read by the code. -/
structure RawListing where
  price : Option RawPrice
deriving DecidableEq, Repr

/-- One entry of the stat-filter group built by `buildSearchQuery` in
src/index.js: `{ id, type: 'and', disabled: false, value: { min, max } }`. -/
structure StatEntry where
  id : String
  type : String
  disabled : Bool
  valueMin : Option ℚ
  valueMax : Option ℚ
deriving DecidableEq, Repr

/-- A stat-filter group `{ type, filters }`. -/
structure StatGroup where
  type : String
  filters : List StatEntry
deriving DecidableEq, Repr

/-- The search-query document built by `buildSearchQuery` in src/index.js
(first document).  The constant `status: online` and `sort: price asc` members
are never read again and are omitted.  `socketLinksMin` models presence of the
`socket_filters` group (`filters.links.min`), `ilvl` the
`misc_filters.filters.ilvl.min` entry, `rarity` the
`type_filters.filters.rarity.option` entry and `influences` the influence-flag
keys attached under `misc_filters.filters`.  This variant's query object never
has a `name` member. -/
structure QueryV1 where
  type : Option String
  rarity : Option String
  influences : List String
  ilvl : Option ℚ
  socketLinksMin : Option ℚ
  stats : List StatGroup
deriving DecidableEq, Repr

/-- The aggregation result `{ min, median, max, results }` of the two
`calculatePriceStats*` functions. -/
structure Stats where
  min : Option PriceObs
  median : Option PriceObs
  max : Option PriceObs
  results : List PriceObs
deriving DecidableEq, Repr

/-- The `priceInfo` object of a POST /price success response. -/
structure PriceInfo where
  totalResults : Nat
  min : Option PriceObs
  median : Option PriceObs
  max : Option PriceObs
  results : List PriceObs
deriving DecidableEq, Repr

/-- Responses of the POST /price handler (modelled from the search stage on). -/
inductive PriceResponse where
  | serverError (msg : String)
  | okRes (priceInfo : PriceInfo) (searchUrl : String)
deriving DecidableEq, Repr

/-- Parsed body of an upstream search response: `result` is `none` when the
field is absent, `total` is `none` when absent (the handler uses `?? 0`). -/
structure SearchData where
  result : Option (List String)
  id : String
  total : Option Nat
deriving DecidableEq, Repr

/-- One upstream answer to a search attempt: either a well-formed success
body, or an error with HTTP status and the message string extracted from the
body by the code. -/
inductive UpstreamResp where
  | okResp (result : List String) (id : String) (total : Option Nat)
  | errResp (status : Nat) (msg : String)
deriving DecidableEq, Repr

/-- Successful outcome of `performSearchWithRetries`. -/
structure SearchSuccess where
  result : List String
  id : String
  total : Option Nat
deriving DecidableEq, Repr

/-! ## QueryBuilder (src/index.js, first document, lines 31-143) -/

/-- The influence-name table of src/index.js (exact-case keys). -/
def influenceMapV1 (s : String) : Option String :=
  if s = "Shaper" then some "shaper_item"
  else if s = "Elder" then some "elder_item"
  else if s = "Crusader" then some "crusader_item"
  else if s = "Redeemer" then some "redeemer_item"
  else if s = "Hunter" then some "hunter_item"
  else if s = "Warlord" then some "warlord_item"
  else none

/-- `addStatFromMod` of src/index.js: skip a missing/empty `statId` and any
already-seen id, otherwise append one entry with `type: 'and'`,
`disabled: false` and null value bounds.  The accumulator pairs the `seen`
set (as a list) with the entries built so far. -/
def addStatFromMod (acc : List String × List StatEntry) (mod : Mod) :
    List String × List StatEntry :=
  match mod.statId with
  | none => acc
  | some id =>
    if id = "" then acc
    else if id ∈ acc.1 then acc
    else (acc.1 ++ [id], acc.2 ++ [⟨id, "and", false, none, none⟩])

/-- `buildSearchQuery` of src/index.js (first document).  The final
"reset empty stats to an empty AND group" step of the source is a no-op
(the group is built in place), so `stats` is always the single AND group. -/
def buildSearchQuery (item : ItemDescription) : QueryV1 :=
  let statEntries := ((item.implicits ++ item.explicits).foldl addStatFromMod ([], [])).2
  { type := presentStr item.baseType
    rarity := (presentStr item.rarity).map lowerStr
    influences := dedupFirst (item.influences.filterMap influenceMapV1) []
    ilvl := item.itemLevel
    socketLinksMin :=
      match item.links with
      | some l => if 1 < l then some l else none
      | none => none
    stats := [⟨"and", statEntries⟩] }

/-! ## Name/type selection of the src/unnamed/part_000 variant (lines 56-62) -/

/-- The `item.rarity && item.rarity.toLowerCase() === "unique"` test of
src/unnamed/part_000. -/
def rarityIsUnique (item : ItemDescription) : Bool :=
  match item.rarity with
  | some r => lowerStr r = "unique"
  | none => false

/-- The name/type selection block of `buildSearchQuery` in
src/unnamed/part_000 (lines 56-62): returns the pair
`(query.query.name, query.query.type)`. -/
def nameTypeSelection (item : ItemDescription) : Option String × Option String :=
  if rarityIsUnique item then
    (presentStr item.name, presentStr item.baseType)
  else
    match presentStr item.baseType with
    | some b => (none, some b)
    | none =>
      match presentStr item.name with
      | some n => (none, some n)
      | none => (none, none)

/-- The `validPrefixes` list of src/unnamed/part_000: the namespaces a
`statId` may carry to be used as a stat filter there. -/
def validStatNamespaces : List String :=
  ["explicit.", "implicit.", "pseudo.", "fractured.", "crafted.", "enchant."]

/-- The `validPrefixes.some(v => mod.statId.startsWith(v))` test of
src/unnamed/part_000. -/
def isNamespacedStatId (id : String) : Bool :=
  validStatNamespaces.any (fun v => jsStartsWith id v)

/-! ## Price parsing (src/index.js lines 148-158) -/

/-- `parsePrice` of src/index.js: extract `{ amount, currency }` from a raw
listing, returning `none` for a missing price object, a non-numeric amount or
an empty (after trimming) currency. -/
def parsePrice (listing : RawListing) : Option PriceObs :=
  match listing.price with
  | none => none
  | some p =>
    let currency := jsTrim (p.currency.getD "")
    match p.amount with
    | none => none
    | some amount => if currency = "" then none else some ⟨amount, currency⟩

/-! ## Price aggregation (src/index.js lines 308-399) -/

/-- One step of filling the per-currency `buckets` map
(`buckets.get(p.currency).push(p.amount)` resp. `buckets.set`); the map is an
insertion-ordered association list, as a JavaScript `Map` is. -/
def addAmount (bs : List (String × List ℚ)) (p : PriceObs) : List (String × List ℚ) :=
  if bs.any (fun b => b.1 == p.currency) then
    bs.map (fun b => if b.1 = p.currency then (b.1, b.2 ++ [p.amount]) else b)
  else bs ++ [(p.currency, [p.amount])]

/-- The `buckets` map of `calculatePriceStatsMedian`. -/
def buckets (prices : List PriceObs) : List (String × List ℚ) :=
  prices.foldl addAmount []

/-- One step of filling the `counts` map of `calculatePriceStatsLowest`. -/
def addCount (cs : List (String × Nat)) (c : String) : List (String × Nat) :=
  if cs.any (fun b => b.1 == c) then
    cs.map (fun b => if b.1 = c then (b.1, b.2 + 1) else b)
  else cs ++ [(c, 1)]

/-- The `counts` map of `calculatePriceStatsLowest`. -/
def counts (prices : List PriceObs) : List (String × Nat) :=
  prices.foldl (fun cs p => addCount cs p.currency) []

/-- One step of the dominant-currency selection loop: keep the running best,
replace it only on a strictly larger count. -/
def pickBest (acc b : String × Nat) : String × Nat :=
  if b.2 > acc.2 then b else acc

/-- The dominant-currency selection of `calculatePriceStatsMedian`:
fold over the buckets map starting from `('', 0)`. -/
def dominantMedian (bs : List (String × List ℚ)) : String :=
  (bs.foldl (fun acc b => pickBest acc (b.1, b.2.length)) ("", 0)).1

/-- The dominant-currency selection of `calculatePriceStatsLowest`:
fold over the counts map starting from `(prices[0].currency, 0)`. -/
def dominantLowest (prices : List PriceObs) : String :=
  ((counts prices).foldl pickBest (((prices.head?.map (fun p => p.currency)).getD ""), 0)).1

/-- `buckets.get(c)`, defaulting to the empty bucket (the default is never hit
on the reachable paths). -/
def bucketOf (bs : List (String × List ℚ)) (c : String) : List ℚ :=
  (((bs.find? (fun b => b.1 == c)).map (fun b => b.2))).getD []

/-- Ascending numeric sort (`.sort((a, b) => a - b)`) of a list of amounts. -/
def sortQ (l : List ℚ) : List ℚ := List.insertionSort (fun a b => a ≤ b) l

/-- Comparison by amount, the sort key of `calculatePriceStatsLowest`. -/
def obsLE (a b : PriceObs) : Prop := a.amount ≤ b.amount

instance : DecidableRel obsLE := fun a b =>
  inferInstanceAs (Decidable (a.amount ≤ b.amount))

instance : IsTotal PriceObs obsLE := ⟨fun a b => le_total a.amount b.amount⟩

instance : IsTrans PriceObs obsLE := ⟨fun _ _ _ h1 h2 => le_trans h1 h2⟩

instance : IsRefl PriceObs obsLE := ⟨fun a => le_refl a.amount⟩

/-- Ascending sort of observations by amount
(`.sort((a, b) => a.amount - b.amount)`). -/
def sortObs (l : List PriceObs) : List PriceObs := List.insertionSort obsLE l

/-- The 10 percent trim of `calculatePriceStatsMedian`: on more than 10
observations keep `slice(Math.floor(n*0.1), Math.ceil(n*0.9))` of the sorted
amounts, otherwise keep everything.  `Math.ceil x = -Math.floor (-x)`. -/
def trimmedAmounts (sorted : List ℚ) : List ℚ :=
  if 10 < sorted.length then
    let start := (⌊(sorted.length : ℚ) * (1/10)⌋).toNat
    let stop := (-⌊-((sorted.length : ℚ) * (9/10))⌋).toNat
    (sorted.drop start).take (stop - start)
  else sorted

/-- The shared median expression of both aggregation functions:
`len % 2 === 0 && mid > 0 ? (a[mid-1] + a[mid]) / 2 : a[mid]`
with `mid = Math.floor(len / 2)`. -/
def medianAmountOf (amounts : List ℚ) : Option ℚ :=
  let mid := amounts.length / 2
  if amounts.length % 2 = 0 ∧ 0 < mid then
    match amounts[mid - 1]?, amounts[mid]? with
    | some a, some b => some ((a + b) / 2)
    | _, _ => none
  else amounts[mid]?

/-- `calculatePriceStatsLowest` of src/index.js (lines 308-349): dominant
currency by count, no outlier trimming; `min`/`max` are the first/last
observation of the amount-sorted dominant-currency slice, `median` the rounded
middle (or mean of the two middles) of its amounts. -/
def calculatePriceStatsLowest (prices : List PriceObs) : Stats :=
  if prices.isEmpty then ⟨none, none, none, []⟩
  else
    let dominant := dominantLowest prices
    let sameCurrency := sortObs (prices.filter (fun p => p.currency == dominant))
    let amounts := sameCurrency.map (fun p => p.amount)
    let md := (medianAmountOf amounts).map
      (fun m => PriceObs.mk ((jsRound m : ℤ) : ℚ) dominant)
    ⟨sameCurrency[0]?, md, sameCurrency[sameCurrency.length - 1]?, prices⟩

/-- `calculatePriceStatsMedian` of src/index.js (lines 354-399): dominant
currency by bucket size, 10 percent trim of the sorted bucket when it has
more than 10 entries, then min / rounded median / max of the kept amounts. -/
def calculatePriceStatsMedian (prices : List PriceObs) : Stats :=
  if prices.isEmpty then ⟨none, none, none, []⟩
  else
    let bs := buckets prices
    let dominant := dominantMedian bs
    let amounts := trimmedAmounts (sortQ (bucketOf bs dominant))
    let mn := amounts[0]?.map (fun a => PriceObs.mk a dominant)
    let mx := (amounts[amounts.length - 1]?).map (fun a => PriceObs.mk a dominant)
    let md := (medianAmountOf amounts).map
      (fun m => PriceObs.mk ((jsRound m : ℤ) : ℚ) dominant)
    ⟨mn, md, mx, prices⟩

/-! ## POST /price handler, from the search stage on (src/index.js lines 405-476) -/

/-- The aggregation-mode dispatch of the handler:
`mode === 'lowest' ? calculatePriceStatsLowest(prices) : calculatePriceStatsMedian(prices)`. -/
def statsForMode (mode : Option String) (prices : List PriceObs) : Stats :=
  if mode = some "lowest" then calculatePriceStatsLowest prices
  else calculatePriceStatsMedian prices

/-- The trade-site search URL built by the handler. -/
def searchUrlFor (league : String) (id : String) : String :=
  "https://www.pathofexile.com/trade" ++ "/search/" ++ encodeURIComponent league ++ "/" ++ id

/-- The POST /price handler from the point where the search stage has
answered, on the success path of the listing fetch.  `fetched` is the listing
list a fetch call would return; the second component counts the listing-fetch
network calls actually made (the `resultIds.length === 0` branch returns
before any fetch). -/
def handleAfterSearch (league : String) (mode : Option String)
    (searchData : SearchData) (fetched : List RawListing) : PriceResponse × Nat :=
  match searchData.result with
  | none => (.serverError "Invalid search response from PoE API.", 0)
  | some ids =>
    let resultIds := ids.take 20
    let url := searchUrlFor league searchData.id
    if resultIds.isEmpty then
      (.okRes ⟨0, none, none, none, []⟩ url, 0)
    else
      let prices := fetched.filterMap parsePrice
      let stats := statsForMode mode prices
      (.okRes ⟨searchData.total.getD 0, stats.min, stats.median, stats.max, stats.results⟩ url, 1)

/-! ## Search retry loop (src/index.js lines 163-232) -/

/-- The effect of the `Invalid query` branch on the working query: delete
`misc_filters.filters.ilvl` if present, then delete `socket_filters` if
present.  The stat group is not touched. -/
def stripInvalidQueryFilters (q : QueryV1) : QueryV1 :=
  let q1 := if q.ilvl.isSome then { q with ilvl := none } else q
  if q1.socketLinksMin.isSome then { q1 with socketLinksMin := none } else q1

/-- The body of the retry loop of `performSearchWithRetries`, with `fuel` the
number of loop iterations still allowed (`maxAttempts - attempt`) and `resp`
the upstream's answer to each attempt index.  Returns the list of queries
actually sent (one per attempt made) and `some` success body, or `none` when
the loop throws (terminal failure or retry exhaustion). -/
def searchGo (resp : Nat → UpstreamResp) :
    Nat → Nat → QueryV1 → List QueryV1 × Option SearchSuccess
  | 0, _, _ => ([], none)
  | fuel + 1, attempt, q =>
    match resp attempt with
    | .okResp r i t => ([q], some ⟨r, i, t⟩)
    | .errResp status msg =>
      if jsIncludes msg "Rate limit exceeded" || status == 429 then
        let rest := searchGo resp fuel (attempt + 1) q
        (q :: rest.1, rest.2)
      else if jsIncludes msg "Unknown item" && q.rarity.isSome then
        let rest := searchGo resp fuel (attempt + 1) { q with rarity := none }
        (q :: rest.1, rest.2)
      else if jsIncludes msg "Invalid query" then
        let q2 := stripInvalidQueryFilters q
        if attempt == 0 then
          let rest := searchGo resp fuel (attempt + 1) q2
          (q :: rest.1, rest.2)
        else ([q], none)
      else ([q], none)

/-- `performSearchWithRetries` of src/index.js, over an abstract upstream
`resp`; the league only enters the request URL and is irrelevant to the
control flow modelled here.  The source's default `maxAttempts` is 5. -/
def performSearchWithRetries (resp : Nat → UpstreamResp) (q : QueryV1)
    (maxAttempts : Nat) : List QueryV1 × Option SearchSuccess :=
  searchGo resp maxAttempts 0 q

/-- The upstream that answers every attempt with an `Invalid query` error. -/
def alwaysInvalidQuery : Nat → UpstreamResp :=
  fun _ => .errResp 400 "Invalid query"

/-! ## Derived views of the aggregation functions -/

/-- The amount list the statistics of `calculatePriceStatsMedian` are taken
from: the sorted, trimmed dominant-currency bucket. -/
def medianKept (prices : List PriceObs) : List ℚ :=
  trimmedAmounts (sortQ (bucketOf (buckets prices) (dominantMedian (buckets prices))))

/-- The observation list the statistics of `calculatePriceStatsLowest` are
taken from: the amount-sorted dominant-currency slice of the input. -/
def lowestSorted (prices : List PriceObs) : List PriceObs :=
  sortObs (prices.filter (fun p => p.currency == dominantLowest prices))

/-- Number of observations carrying the currency `c`. -/
def currencyCount (prices : List PriceObs) (c : String) : Nat :=
  (prices.filter (fun p => p.currency == c)).length

/-- The amounts of the dominant-currency observations, in input order. -/
def dominantAmounts (prices : List PriceObs) : List ℚ :=
  (prices.filter (fun p => p.currency == dominantMedian (buckets prices))).map
    (fun p => p.amount)

/-- Specification-side description of the stat entries built by
`buildSearchQuery` of src/index.js, following the amended claim C3: one entry
per distinct non-empty `statId`, in input order with the first occurrence
winning, each entry in `type: 'and'`, `disabled: false`, null-bounds form. -/
def statEntriesExpected : List Mod → List String → List StatEntry
  | [], _ => []
  | m :: ms, seen =>
    match m.statId with
    | none => statEntriesExpected ms seen
    | some id =>
      if id = "" ∨ id ∈ seen then statEntriesExpected ms seen
      else ⟨id, "and", false, none, none⟩ :: statEntriesExpected ms (id :: seen)

/-! ### Concrete sample data used by the claims -/

/-- A query with a non-empty stat group and an item-level filter. -/
def invalidQueryEx : QueryV1 :=
  ⟨some "Vaal Regalia", none, [], some 84, none,
    [⟨"and", [⟨"explicit.stat_123", "and", false, none, none⟩]⟩]⟩

/-- A unique item with a name and no base type. -/
def hhItem : ItemDescription :=
  ⟨some "Headhunter", none, some "Unique", none, none, none, [], [], []⟩

/-- An item whose only mod has a statId outside every valid namespace. -/
def invalidStatItem : ItemDescription :=
  ⟨none, none, none, none, none, none, [], [], [⟨some "totally_invalid", none⟩]⟩

/-- An item with a duplicated statId among its explicit mods. -/
def dupStatItem : ItemDescription :=
  ⟨none, none, none, none, none, none, [], [],
    [⟨some "explicit.a", none⟩, ⟨some "explicit.a", none⟩, ⟨some "explicit.b", none⟩]⟩

/-- Eleven chaos observations with amounts 1..11 (spec round-trip sample). -/
def chaosSample11 : List PriceObs :=
  [⟨1, "chaos"⟩, ⟨2, "chaos"⟩, ⟨3, "chaos"⟩, ⟨4, "chaos"⟩, ⟨5, "chaos"⟩, ⟨6, "chaos"⟩,
    ⟨7, "chaos"⟩, ⟨8, "chaos"⟩, ⟨9, "chaos"⟩, ⟨10, "chaos"⟩, ⟨11, "chaos"⟩]

/-- Three divine and seven chaos observations (spec dominance sample). -/
def divChaosSample : List PriceObs :=
  [⟨100, "divine"⟩, ⟨1, "chaos"⟩, ⟨2, "chaos"⟩, ⟨200, "divine"⟩, ⟨3, "chaos"⟩,
    ⟨4, "chaos"⟩, ⟨5, "chaos"⟩, ⟨300, "divine"⟩, ⟨6, "chaos"⟩, ⟨7, "chaos"⟩]

/-- A cheap divine observation next to two pricier chaos observations. -/
def mixedLowSample : List PriceObs :=
  [⟨1, "divine"⟩, ⟨5, "chaos"⟩, ⟨6, "chaos"⟩]

/-! ## Arithmetic bridges

The source computes the trim indices as `Math.floor(n*0.1)` and
`Math.ceil(n*0.9)` and rounds with `Math.round`; the following lemmas restate
those real-arithmetic operations as integer arithmetic. -/

theorem floorTenth (n : ℕ) : (⌊(n : ℚ) * (1/10)⌋).toNat = n / 10 := by
  have key : ∀ a b : ℕ, 10 * b ≤ a → a < 10 * b + 10 → ⌊(a : ℚ) * (1/10)⌋ = (b : ℤ) := by
    intro a b h1 h2
    rw [Int.floor_eq_iff]
    have c1 : ((10 * b : ℕ) : ℚ) ≤ ((a : ℕ) : ℚ) := by exact_mod_cast h1
    have c2 : ((a : ℕ) : ℚ) < ((10 * b + 10 : ℕ) : ℚ) := by exact_mod_cast h2
    push_cast at c1 c2
    constructor
    · push_cast
      linarith
    · push_cast
      linarith
  rw [key n (n / 10) (Nat.mul_div_le n 10) (by omega)]
  exact Int.toNat_natCast _

theorem ceilNineTenths (n : ℕ) : (-⌊-((n : ℚ) * (9/10))⌋).toNat = (9 * n + 9) / 10 := by
  have key : ∀ a b : ℕ, 9 * a ≤ 10 * b → 10 * b < 9 * a + 10 →
      ⌊-((a : ℚ) * (9/10))⌋ = -(b : ℤ) := by
    intro a b h1 h2
    rw [Int.floor_eq_iff]
    have c1 : ((9 * a : ℕ) : ℚ) ≤ ((10 * b : ℕ) : ℚ) := by exact_mod_cast h1
    have c2 : ((10 * b : ℕ) : ℚ) < ((9 * a + 10 : ℕ) : ℚ) := by exact_mod_cast h2
    push_cast at c1 c2
    constructor
    · push_cast
      linarith
    · push_cast
      linarith
  rw [key n ((9 * n + 9) / 10) (by omega) (by omega)]
  omega

/-- `Math.round` is the identity on integers. -/
theorem jsRound_intCast (z : ℤ) : jsRound ((z : ℚ)) = z := by
  unfold jsRound
  rw [Int.floor_int_add]
  norm_num

/-- The trim of `calculatePriceStatsMedian`, written with integer index
arithmetic: `Math.floor(n*0.1) = n / 10` and `Math.ceil(n*0.9) = (9n+9)/10`. -/
theorem trimmedAmounts_eq (l : List ℚ) :
    trimmedAmounts l =
      if 10 < l.length then
        (l.drop (l.length / 10)).take ((9 * l.length + 9) / 10 - l.length / 10)
      else l := by
  unfold trimmedAmounts
  rw [floorTenth, ceilNineTenths]

/-- Unfolding of `calculatePriceStatsMedian` on a non-empty input. -/
theorem calcMedian_eq (prices : List PriceObs) (h : prices ≠ []) :
    calculatePriceStatsMedian prices =
      ⟨(medianKept prices)[0]?.map
          (fun a => PriceObs.mk a (dominantMedian (buckets prices))),
        (medianAmountOf (medianKept prices)).map
          (fun m => PriceObs.mk ((jsRound m : ℤ) : ℚ) (dominantMedian (buckets prices))),
        ((medianKept prices)[(medianKept prices).length - 1]?).map
          (fun a => PriceObs.mk a (dominantMedian (buckets prices))),
        prices⟩ := by
  unfold calculatePriceStatsMedian medianKept
  rw [if_neg (by simp [List.isEmpty_eq_false, h])]

/-- Unfolding of `calculatePriceStatsLowest` on a non-empty input. -/
theorem calcLowest_eq (prices : List PriceObs) (h : prices ≠ []) :
    calculatePriceStatsLowest prices =
      ⟨(lowestSorted prices)[0]?,
        (medianAmountOf ((lowestSorted prices).map (fun p => p.amount))).map
          (fun m => PriceObs.mk ((jsRound m : ℤ) : ℚ) (dominantLowest prices)),
        (lowestSorted prices)[(lowestSorted prices).length - 1]?,
        prices⟩ := by
  unfold calculatePriceStatsLowest lowestSorted
  rw [if_neg (by simp [List.isEmpty_eq_false, h])]

/-! ## Generic facts about sorted lists -/

theorem sortQ_perm (l : List ℚ) : (sortQ l).Perm l :=
  List.perm_insertionSort _ l

theorem sortQ_sorted (l : List ℚ) : (sortQ l).Sorted (fun a b => a ≤ b) :=
  List.sorted_insertionSort _ l

theorem sortObs_perm (l : List PriceObs) : (sortObs l).Perm l :=
  List.perm_insertionSort _ l

theorem sortObs_sorted (l : List PriceObs) : (sortObs l).Sorted obsLE :=
  List.sorted_insertionSort _ l

/-- In a `Pairwise r` list with a reflexive `r`, the head is `r`-below every
element. -/
theorem pairwise_first_rel {α : Type} {r : α → α → Prop} [IsRefl α r]
    {l : List α} (hs : l.Pairwise r) {a : α} (h0 : l[0]? = some a) :
    ∀ x ∈ l, r a x := by
  cases l with
  | nil => simp at h0
  | cons b t =>
    have hab : a = b := by
      simp only [List.getElem?_cons_zero, Option.some.injEq] at h0
      exact h0.symm
    subst hab
    intro x hx
    rcases List.mem_cons.mp hx with rfl | hx
    · exact IsRefl.refl x
    · exact (List.pairwise_cons.mp hs).1 x hx

/-- In a `Pairwise r` list with a reflexive `r`, the last element is `r`-above
every element. -/
theorem pairwise_last_rel {α : Type} {r : α → α → Prop} [IsRefl α r]
    {l : List α} (hs : l.Pairwise r) {a : α} (hN : l[l.length - 1]? = some a) :
    ∀ x ∈ l, r x a := by
  induction l with
  | nil => simp at hN
  | cons b t ih =>
    cases t with
    | nil =>
      have hab : a = b := by
        simp only [List.length_cons, List.length_nil, Nat.zero_add, Nat.sub_self,
          List.getElem?_cons_zero, Option.some.injEq] at hN
        exact hN.symm
      subst hab
      intro x hx
      rcases List.mem_cons.mp hx with rfl | hx
      · exact IsRefl.refl x
      · simp at hx
    | cons c u =>
      have hlen : (b :: c :: u).length - 1 = (c :: u).length := by
        simp
      rw [hlen, show ((c :: u).length = ((c :: u).length - 1) + 1) by simp,
        List.getElem?_cons_succ] at hN
      intro x hx
      rcases List.mem_cons.mp hx with hx | hx
      · subst hx
        have hmem : a ∈ c :: u := List.getElem?_mem hN
        exact (List.pairwise_cons.mp hs).1 a hmem
      · exact ih (List.pairwise_cons.mp hs).2 hN x hx

/-- The shared median expression yields a value on every non-empty amount
list. -/
theorem medianAmountOf_isSome {l : List ℚ} (h : l ≠ []) :
    (medianAmountOf l).isSome := by
  have hlen : 0 < l.length := List.length_pos.mpr h
  unfold medianAmountOf
  by_cases hc : l.length % 2 = 0 ∧ 0 < l.length / 2
  · rw [if_pos hc]
    have h1 : l.length / 2 - 1 < l.length := by omega
    have h2 : l.length / 2 < l.length := by omega
    rw [List.getElem?_eq_getElem h1, List.getElem?_eq_getElem h2]
    rfl
  · rw [if_neg hc]
    have h2 : l.length / 2 < l.length := by omega
    rw [List.getElem?_eq_getElem h2]
    rfl

/-- On a sorted list the median expression lies between the first and the last
element. -/
theorem medianAmountOf_bounds {l : List ℚ} (hs : l.Sorted (fun a b => a ≤ b))
    {a0 aN m : ℚ} (h0 : l[0]? = some a0) (hN : l[l.length - 1]? = some aN)
    (hm : medianAmountOf l = some m) : a0 ≤ m ∧ m ≤ aN := by
  have hfirst := pairwise_first_rel hs h0
  have hlast := pairwise_last_rel hs hN
  unfold medianAmountOf at hm
  by_cases hc : l.length % 2 = 0 ∧ 0 < l.length / 2
  · rw [if_pos hc] at hm
    cases hx : l[l.length / 2 - 1]? with
    | none => rw [hx] at hm; cases hy : l[l.length / 2]? <;> simp [hy] at hm
    | some x =>
      cases hy : l[l.length / 2]? with
      | none => rw [hx, hy] at hm; simp at hm
      | some y =>
        rw [hx, hy] at hm
        simp only [Option.some.injEq] at hm
        have hx' := List.getElem?_mem hx
        have hy' := List.getElem?_mem hy
        constructor
        · have := hfirst x hx'
          have := hfirst y hy'
          linarith [hm]
        · have := hlast x hx'
          have := hlast y hy'
          linarith [hm]
  · rw [if_neg hc] at hm
    have hmem := List.getElem?_mem hm
    exact ⟨hfirst m hmem, hlast m hmem⟩

/-- `Math.round` of a value between two integers stays between them. -/
theorem jsRound_bounds {a0 aN m : ℚ} (z0 zN : ℤ) (ha0 : a0 = (z0 : ℚ))
    (haN : aN = (zN : ℚ)) (h1 : a0 ≤ m) (h2 : m ≤ aN) :
    a0 ≤ ((jsRound m : ℤ) : ℚ) ∧ ((jsRound m : ℤ) : ℚ) ≤ aN := by
  subst ha0 haN
  constructor
  · have : z0 ≤ jsRound m := by
      unfold jsRound
      rw [Int.le_floor]
      linarith
    exact_mod_cast this
  · have : jsRound m ≤ zN := by
      unfold jsRound
      have hmono : ⌊m + 1/2⌋ ≤ ⌊(zN : ℚ) + 1/2⌋ := Int.floor_mono (by linarith)
      rw [Int.floor_int_add] at hmono
      have : ⌊(1 : ℚ)/2⌋ = 0 := by norm_num
      omega
    exact_mod_cast this

/-- The trimmed list is a sublist of the sorted bucket. -/
theorem trimmedAmounts_sublist (l : List ℚ) : (trimmedAmounts l).Sublist l := by
  rw [trimmedAmounts_eq]
  by_cases h : 10 < l.length
  · rw [if_pos h]
    exact ((List.take_sublist _ _).trans (List.drop_sublist _ _))
  · rw [if_neg h]

/-- Trimming preserves sortedness. -/
theorem trimmedAmounts_sorted {l : List ℚ} (hs : l.Sorted (fun a b => a ≤ b)) :
    (trimmedAmounts l).Sorted (fun a b => a ≤ b) :=
  List.Pairwise.sublist (trimmedAmounts_sublist l) hs

/-- Trimming a non-empty list leaves a non-empty list: for `n > 10` the slice
`[n/10, (9n+9)/10)` is non-empty. -/
theorem trimmedAmounts_ne_nil {l : List ℚ} (h : l ≠ []) :
    trimmedAmounts l ≠ [] := by
  rw [trimmedAmounts_eq]
  by_cases hlen : 10 < l.length
  · rw [if_pos hlen]
    apply List.ne_nil_of_length_pos
    rw [List.length_take, List.length_drop]
    have : l.length / 10 < (9 * l.length + 9) / 10 ∧ (9 * l.length + 9) / 10 ≤ l.length := by
      omega
    omega
  · rw [if_neg hlen]
    exact h

/-! ## The currency buckets as an insertion-ordered association list -/

theorem dedupFirst_nil (seen : List String) : dedupFirst [] seen = [] := rfl

theorem dedupFirst_cons (x : String) (xs seen : List String) :
    dedupFirst (x :: xs) seen =
      if x ∈ seen then dedupFirst xs seen else x :: dedupFirst xs (x :: seen) := rfl

theorem dedupFirst_congr {l s1 s2 : List String} (h : ∀ x, x ∈ s1 ↔ x ∈ s2) :
    dedupFirst l s1 = dedupFirst l s2 := by
  induction l generalizing s1 s2 with
  | nil => rfl
  | cons x xs ih =>
    rw [dedupFirst_cons, dedupFirst_cons]
    by_cases hx : x ∈ s1
    · rw [if_pos hx, if_pos ((h x).mp hx)]
      exact ih h
    · rw [if_neg hx, if_neg (fun hc => hx ((h x).mpr hc))]
      congr 1
      exact ih (fun y => by simp only [List.mem_cons]; exact or_congr Iff.rfl (h y))

theorem mem_of_mem_dedupFirst {l seen : List String} {x : String}
    (hx : x ∈ dedupFirst l seen) : x ∈ l := by
  induction l generalizing seen with
  | nil => simp [dedupFirst] at hx
  | cons y ys ih =>
    unfold dedupFirst at hx
    by_cases hy : y ∈ seen
    · rw [if_pos hy] at hx
      exact List.mem_cons_of_mem _ (ih hx)
    · rw [if_neg hy] at hx
      rcases List.mem_cons.mp hx with rfl | hx
      · exact List.mem_cons_self _ _
      · exact List.mem_cons_of_mem _ (ih hx)

theorem mem_dedupFirst_of_mem {l seen : List String} {x : String}
    (hl : x ∈ l) (hs : x ∉ seen) : x ∈ dedupFirst l seen := by
  induction l generalizing seen with
  | nil => simp at hl
  | cons y ys ih =>
    unfold dedupFirst
    rcases List.mem_cons.mp hl with rfl | hl
    · rw [if_neg hs]
      exact List.mem_cons_self _ _
    · by_cases hy : y ∈ seen
      · rw [if_pos hy]
        exact ih hl hs
      · rw [if_neg hy]
        by_cases hxy : x = y
        · subst hxy
          exact List.mem_cons_self _ _
        · exact List.mem_cons_of_mem _ (ih hl (by simp [List.mem_cons, hxy, hs]))

theorem not_mem_seen_of_mem_dedupFirst {l seen : List String} {x : String}
    (hx : x ∈ dedupFirst l seen) : x ∉ seen := by
  induction l generalizing seen with
  | nil => simp [dedupFirst] at hx
  | cons y ys ih =>
    unfold dedupFirst at hx
    by_cases hy : y ∈ seen
    · rw [if_pos hy] at hx
      exact ih hx
    · rw [if_neg hy] at hx
      rcases List.mem_cons.mp hx with rfl | hx
      · exact hy
      · intro hc
        exact ih hx (List.mem_cons_of_mem _ hc)

theorem dedupFirst_nodup (l : List String) : ∀ seen, (dedupFirst l seen).Nodup := by
  induction l with
  | nil => intro seen; simp [dedupFirst]
  | cons y ys ih =>
    intro seen
    unfold dedupFirst
    by_cases hy : y ∈ seen
    · rw [if_pos hy]
      exact ih seen
    · rw [if_neg hy]
      refine List.nodup_cons.mpr ⟨?_, ih _⟩
      intro hc
      exact not_mem_seen_of_mem_dedupFirst hc (List.mem_cons_self _ _)

theorem keys_addAmount (bs : List (String × List ℚ)) (p : PriceObs) :
    (addAmount bs p).map Prod.fst =
      if p.currency ∈ bs.map Prod.fst then bs.map Prod.fst
      else bs.map Prod.fst ++ [p.currency] := by
  unfold addAmount
  have hany : (bs.any (fun b => b.1 == p.currency)) = true ↔ p.currency ∈ bs.map Prod.fst := by
    simp only [List.any_eq_true, beq_iff_eq, List.mem_map]
  by_cases h : p.currency ∈ bs.map Prod.fst
  · rw [if_pos (hany.mpr h), if_pos h, List.map_map]
    apply List.map_congr_left
    intro b _
    by_cases hb : b.1 = p.currency <;> simp [hb]
  · rw [if_neg (fun hc => h (hany.mp hc)), if_neg h]
    simp

theorem keys_foldl (l : List PriceObs) : ∀ bs : List (String × List ℚ),
    ((l.foldl addAmount bs).map Prod.fst) =
      bs.map Prod.fst ++ dedupFirst (l.map (fun p => p.currency)) (bs.map Prod.fst) := by
  induction l with
  | nil => intro bs; simp [dedupFirst]
  | cons p t ih =>
    intro bs
    rw [List.foldl_cons, ih (addAmount bs p), keys_addAmount, List.map_cons, dedupFirst_cons]
    by_cases h : p.currency ∈ bs.map Prod.fst
    · rw [if_pos h, if_pos h]
    · rw [if_neg h, if_neg h, List.append_assoc, List.singleton_append]
      congr 1
      congr 1
      exact dedupFirst_congr (fun y => by simp [or_comm])

theorem keys_buckets (prices : List PriceObs) :
    (buckets prices).map Prod.fst = dedupFirst (prices.map (fun p => p.currency)) [] := by
  have := keys_foldl prices []
  simpa [buckets] using this

theorem keys_buckets_nodup (prices : List PriceObs) :
    ((buckets prices).map Prod.fst).Nodup := by
  rw [keys_buckets]
  exact dedupFirst_nodup _ _

/-- Effect of one `addAmount` step on the bucket looked up for `c`. -/
theorem bucketOf_addAmount (bs : List (String × List ℚ)) (p : PriceObs) (c : String) :
    bucketOf (addAmount bs p) c =
      if p.currency = c then bucketOf bs c ++ [p.amount] else bucketOf bs c := by
  unfold addAmount bucketOf
  by_cases hmem : bs.any (fun b => b.1 == p.currency) = true
  · rw [if_pos hmem, List.find?_map]
    have hcomp : ((fun b : String × List ℚ => b.1 == c) ∘
        (fun b : String × List ℚ => if b.1 = p.currency then (b.1, b.2 ++ [p.amount]) else b)) =
        fun b : String × List ℚ => b.1 == c := by
      funext b
      by_cases hb : b.1 = p.currency <;> simp [hb]
    rw [hcomp]
    by_cases hpc : p.currency = c
    · subst hpc
      obtain ⟨e, he⟩ : ∃ e, bs.find? (fun b => b.1 == p.currency) = some e := by
        cases hfind : bs.find? (fun b => b.1 == p.currency) with
        | some e => exact ⟨e, rfl⟩
        | none =>
          rw [List.find?_eq_none] at hfind
          rw [List.any_eq_true] at hmem
          obtain ⟨x, hx1, hx2⟩ := hmem
          exact absurd hx2 (hfind x hx1)
      have he1 : e.1 = p.currency := by simpa using List.find?_some he
      rw [he, if_pos rfl]
      simp [he1]
    · rw [if_neg hpc]
      cases hfind : bs.find? (fun b => b.1 == c) with
      | none => simp
      | some e =>
        have he1 : e.1 = c := by simpa using List.find?_some hfind
        have hne : ¬(e.1 = p.currency) := fun hc => hpc (by rw [← he1, hc])
        simp [hne]
  · rw [if_neg hmem, List.find?_append]
    have hnone : bs.find? (fun b => b.1 == p.currency) = none := by
      rw [List.find?_eq_none]
      intro x hx
      intro hc
      exact hmem (List.any_eq_true.mpr ⟨x, hx, hc⟩)
    by_cases hpc : p.currency = c
    · subst hpc
      rw [hnone]
      simp
    · have hfalse : (p.currency == c) = false := by simpa using hpc
      cases hfind : bs.find? (fun b => b.1 == c) with
      | none =>
        rw [if_neg hpc]
        simp [List.find?_cons, hfalse]
      | some e =>
        rw [if_neg hpc]
        simp [List.find?_cons, hfalse]

/-- The bucket looked up for `c` after folding the whole price list. -/
theorem bucketOf_foldl (l : List PriceObs) : ∀ (bs : List (String × List ℚ)) (c : String),
    bucketOf (l.foldl addAmount bs) c =
      bucketOf bs c ++ (l.filter (fun p => p.currency == c)).map (fun p => p.amount) := by
  induction l with
  | nil => intro bs c; simp
  | cons p t ih =>
    intro bs c
    rw [List.foldl_cons, ih, bucketOf_addAmount]
    by_cases h : p.currency = c
    · rw [if_pos h]
      rw [List.filter_cons, if_pos (by simpa using h)]
      simp
    · rw [if_neg h]
      rw [List.filter_cons, if_neg (by simpa using h)]

/-- The bucket of a currency is exactly the amounts of that currency's
observations, in input order. -/
theorem bucketOf_buckets (prices : List PriceObs) (c : String) :
    bucketOf (buckets prices) c =
      (prices.filter (fun p => p.currency == c)).map (fun p => p.amount) := by
  have := bucketOf_foldl prices [] c
  simpa [buckets, bucketOf] using this

/-- With pairwise-distinct keys, a member of the association list is what
`find?` returns for its key. -/
theorem find?_of_mem_keysNodup {bs : List (String × List ℚ)}
    (hnd : (bs.map Prod.fst).Nodup) {c : String} {bl : List ℚ}
    (hm : (c, bl) ∈ bs) : bs.find? (fun b => b.1 == c) = some (c, bl) := by
  induction bs with
  | nil => simp at hm
  | cons b t ih =>
    rcases List.mem_cons.mp hm with rfl | hm
    · simp [List.find?]
    · have hb : ¬(b.1 = c) := by
        intro hc
        have : c ∈ t.map Prod.fst := List.mem_map.mpr ⟨(c, bl), hm, rfl⟩
        rw [List.map_cons] at hnd
        exact (List.nodup_cons.mp hnd).1 (hc ▸ this)
      have : (b.1 == c) = false := by simpa using hb
      rw [List.find?_cons, this]
      exact ih (by rw [List.map_cons] at hnd; exact (List.nodup_cons.mp hnd).2) hm

/-- Content of any entry of the buckets map. -/
theorem mem_buckets_content {prices : List PriceObs} {c : String} {bl : List ℚ}
    (hm : (c, bl) ∈ buckets prices) :
    bl = (prices.filter (fun p => p.currency == c)).map (fun p => p.amount) := by
  have hfind := find?_of_mem_keysNodup (keys_buckets_nodup prices) hm
  have : bucketOf (buckets prices) c = bl := by
    unfold bucketOf
    rw [hfind]
    rfl
  rw [← this, bucketOf_buckets]

/-- One `addCount` step is the image of one `addAmount` step under
entry-wise length. -/
theorem addCount_map (bs : List (String × List ℚ)) (p : PriceObs) :
    addCount (bs.map (fun b => (b.1, b.2.length))) p.currency =
      (addAmount bs p).map (fun b => (b.1, b.2.length)) := by
  unfold addCount addAmount
  have hany : ∀ bs' : List (String × List ℚ),
      ((bs'.map (fun b => (b.1, b.2.length))).any (fun b => b.1 == p.currency)) =
        bs'.any (fun b => b.1 == p.currency) := by
    intro bs'
    induction bs' with
    | nil => rfl
    | cons b t ih => simp only [List.map_cons, List.any_cons, ih]
  rw [hany bs]
  by_cases h : bs.any (fun b => b.1 == p.currency) = true
  · rw [if_pos h, if_pos h, List.map_map, List.map_map]
    apply List.map_congr_left
    intro b _
    by_cases hb : b.1 = p.currency <;> simp [hb]
  · rw [if_neg h, if_neg h]
    simp

/-- The counts map of `calculatePriceStatsLowest` is the buckets map of
`calculatePriceStatsMedian` with each bucket replaced by its size. -/
theorem counts_eq (prices : List PriceObs) :
    counts prices = (buckets prices).map (fun b => (b.1, b.2.length)) := by
  suffices h : ∀ (l : List PriceObs) (bs : List (String × List ℚ)),
      l.foldl (fun cs p => addCount cs p.currency) (bs.map (fun b => (b.1, b.2.length))) =
        (l.foldl addAmount bs).map (fun b => (b.1, b.2.length)) by
    have := h prices []
    simpa [counts, buckets] using this
  intro l
  induction l with
  | nil => intro bs; rfl
  | cons p t ih =>
    intro bs
    rw [List.foldl_cons, List.foldl_cons, addCount_map, ih]

/-! ## The strict-argmax fold that selects the dominant currency -/

/-- Full characterization of the fold with step
`if b.2 > acc.2 then b else acc`: either nothing beat the accumulator,
or the result is the first entry of maximal count exceeding it. -/
theorem pickBest_foldl_spec (cs : List (String × Nat)) : ∀ acc : String × Nat,
    (cs.foldl pickBest acc = acc ∧ ∀ b ∈ cs, b.2 ≤ acc.2) ∨
    (∃ (i : ℕ) (b : String × Nat), cs[i]? = some b ∧ cs.foldl pickBest acc = b ∧ acc.2 < b.2 ∧
      (∀ (j : ℕ) (bj : String × Nat), cs[j]? = some bj → bj.2 ≤ b.2) ∧
      (∀ (j : ℕ) (bj : String × Nat), j < i → cs[j]? = some bj → bj.2 < b.2)) := by
  induction cs with
  | nil =>
    intro acc
    left
    exact ⟨rfl, by simp⟩
  | cons b t ih =>
    intro acc
    rw [List.foldl_cons]
    by_cases hb : acc.2 < b.2
    · rw [show pickBest acc b = b from if_pos hb]
      rcases ih b with ⟨heq, hall⟩ | ⟨i, bi, hget, heq, hlt, hmax, hprev⟩
      · right
        refine ⟨0, b, by simp, heq, hb, ?_, ?_⟩
        · intro j bj hj
          cases j with
          | zero =>
            simp only [List.getElem?_cons_zero, Option.some.injEq] at hj
            subst hj
            exact le_refl _
          | succ j =>
            rw [List.getElem?_cons_succ] at hj
            exact hall bj (List.getElem?_mem hj)
        · intro j bj hjlt hj
          omega
      · right
        refine ⟨i + 1, bi, ?_, heq, lt_trans hb hlt, ?_, ?_⟩
        · rw [List.getElem?_cons_succ]
          exact hget
        · intro j bj hj
          cases j with
          | zero =>
            simp only [List.getElem?_cons_zero, Option.some.injEq] at hj
            subst hj
            exact le_of_lt hlt
          | succ j =>
            rw [List.getElem?_cons_succ] at hj
            exact hmax j bj hj
        · intro j bj hjlt hj
          cases j with
          | zero =>
            simp only [List.getElem?_cons_zero, Option.some.injEq] at hj
            subst hj
            exact hlt
          | succ j =>
            rw [List.getElem?_cons_succ] at hj
            exact hprev j bj (by omega) hj
    · rw [show pickBest acc b = acc from if_neg hb]
      push_neg at hb
      rcases ih acc with ⟨heq, hall⟩ | ⟨i, bi, hget, heq, hlt, hmax, hprev⟩
      · left
        refine ⟨heq, ?_⟩
        intro x hx
        rcases List.mem_cons.mp hx with rfl | hx
        · exact hb
        · exact hall x hx
      · right
        refine ⟨i + 1, bi, ?_, heq, hlt, ?_, ?_⟩
        · rw [List.getElem?_cons_succ]
          exact hget
        · intro j bj hj
          cases j with
          | zero =>
            simp only [List.getElem?_cons_zero, Option.some.injEq] at hj
            subst hj
            exact le_trans hb (le_of_lt hlt)
          | succ j =>
            rw [List.getElem?_cons_succ] at hj
            exact hmax j bj hj
        · intro j bj hjlt hj
          cases j with
          | zero =>
            simp only [List.getElem?_cons_zero, Option.some.injEq] at hj
            subst hj
            exact lt_of_le_of_lt hb hlt
          | succ j =>
            rw [List.getElem?_cons_succ] at hj
            exact hprev j bj (by omega) hj

theorem dominantMedian_eq_foldl (bs : List (String × List ℚ)) :
    dominantMedian bs =
      ((bs.map (fun b => (b.1, b.2.length))).foldl pickBest ("", 0)).1 := by
  unfold dominantMedian
  rw [List.foldl_map]

theorem dominantLowest_eq_foldl (prices : List PriceObs) :
    dominantLowest prices =
      (((buckets prices).map (fun b => (b.1, b.2.length))).foldl pickBest
        (((prices.head?.map (fun p => p.currency)).getD ""), 0)).1 := by
  unfold dominantLowest
  rw [counts_eq]

/-- Every entry of the buckets map of a price list has a non-empty bucket. -/
theorem buckets_entry_pos {prices : List PriceObs} {b : String × List ℚ}
    (hb : b ∈ buckets prices) : 1 ≤ b.2.length := by
  have hmem : (b.1, b.2) ∈ buckets prices := by
    rw [Prod.mk.eta]
    exact hb
  have hcontent := mem_buckets_content hmem
  have hkey : b.1 ∈ (buckets prices).map Prod.fst := List.mem_map.mpr ⟨b, hb, rfl⟩
  rw [keys_buckets] at hkey
  have hinl : b.1 ∈ prices.map (fun p => p.currency) := mem_of_mem_dedupFirst hkey
  obtain ⟨q, hq, hqc⟩ := List.mem_map.mp hinl
  have hqf : q ∈ prices.filter (fun p => p.currency == b.1) :=
    List.mem_filter.mpr ⟨hq, by simpa using hqc⟩
  have : 0 < (prices.filter (fun p => p.currency == b.1)).length :=
    List.length_pos.mpr (List.ne_nil_of_mem hqf)
  rw [hcontent, List.length_map]
  omega

/-- The buckets map of a non-empty price list is non-empty. -/
theorem buckets_ne_nil {prices : List PriceObs} (h : prices ≠ []) :
    buckets prices ≠ [] := by
  intro hnil
  have hk := keys_buckets prices
  rw [hnil] at hk
  cases prices with
  | nil => exact h rfl
  | cons p t =>
    rw [List.map_cons, dedupFirst_cons, if_neg (by simp)] at hk
    simp at hk

/-- Generic characterization of both dominant-currency selections: for any
start value with count `0`, the fold over the (mapped) buckets returns the
key of the first bucket of maximal size.  `i` is its position, `bl` its
content. -/
theorem dominant_spec (prices : List PriceObs) (h : prices ≠ []) (acc1 : String) :
    ∃ (i : ℕ) (bl : List ℚ), (buckets prices)[i]? = some
        ((((buckets prices).map (fun b => (b.1, b.2.length))).foldl pickBest (acc1, 0)).1, bl) ∧
      (∀ (j : ℕ) (b : String × List ℚ), (buckets prices)[j]? = some b → b.2.length ≤ bl.length) ∧
      (∀ (j : ℕ) (b : String × List ℚ), j < i →
        (buckets prices)[j]? = some b → b.2.length < bl.length) := by
  rcases pickBest_foldl_spec ((buckets prices).map (fun b => (b.1, b.2.length))) (acc1, 0) with
    ⟨heq, hall⟩ | ⟨i, b, hget, heq, hlt, hmax, hprev⟩
  · exfalso
    obtain ⟨b0, bs', hbs0⟩ : ∃ b0 bs', buckets prices = b0 :: bs' := by
      cases hb : buckets prices with
      | nil => exact absurd hb (buckets_ne_nil h)
      | cons b0 bs' => exact ⟨b0, bs', rfl⟩
    have hb0 : (b0.1, b0.2.length) ∈ (buckets prices).map (fun b => (b.1, b.2.length)) := by
      rw [hbs0]
      simp
    have hle := hall _ hb0
    have hpos : 1 ≤ b0.2.length := buckets_entry_pos (by rw [hbs0]; simp)
    have h2 : b0.2.length ≤ 0 := hle
    omega
  · rw [List.getElem?_map] at hget
    obtain ⟨e, he, hfe⟩ := Option.map_eq_some'.mp hget
    refine ⟨i, e.2, ?_, ?_, ?_⟩
    · rw [heq, ← hfe, he]
    · intro j bj hj
      have : ((buckets prices).map (fun b => (b.1, b.2.length)))[j]? = some (bj.1, bj.2.length) := by
        rw [List.getElem?_map, hj]
        rfl
      have hle := hmax j (bj.1, bj.2.length) this
      rw [← hfe] at hle
      exact hle
    · intro j bj hjlt hj
      have : ((buckets prices).map (fun b => (b.1, b.2.length)))[j]? = some (bj.1, bj.2.length) := by
        rw [List.getElem?_map, hj]
        rfl
      have hle := hprev j (bj.1, bj.2.length) hjlt this
      rw [← hfe] at hle
      exact hle

/-- The dominant currency of the median aggregation occurs in the input. -/
theorem dominantMedian_mem (prices : List PriceObs) (h : prices ≠ []) :
    ∃ q ∈ prices, q.currency = dominantMedian (buckets prices) := by
  obtain ⟨i, bl, hget, -, -⟩ := dominant_spec prices h ""
  rw [← dominantMedian_eq_foldl] at hget
  have hmem := List.getElem?_mem hget
  have hkey : dominantMedian (buckets prices) ∈ (buckets prices).map Prod.fst :=
    List.mem_map.mpr ⟨_, hmem, rfl⟩
  rw [keys_buckets] at hkey
  obtain ⟨q, hq, hqc⟩ := List.mem_map.mp (mem_of_mem_dedupFirst hkey)
  exact ⟨q, hq, hqc⟩

/-- The dominant currency of the lowest aggregation occurs in the input. -/
theorem dominantLowest_mem (prices : List PriceObs) (h : prices ≠ []) :
    ∃ q ∈ prices, q.currency = dominantLowest prices := by
  obtain ⟨i, bl, hget, -, -⟩ :=
    dominant_spec prices h ((prices.head?.map (fun p => p.currency)).getD "")
  rw [← dominantLowest_eq_foldl] at hget
  have hmem := List.getElem?_mem hget
  have hkey : dominantLowest prices ∈ (buckets prices).map Prod.fst :=
    List.mem_map.mpr ⟨_, hmem, rfl⟩
  rw [keys_buckets] at hkey
  obtain ⟨q, hq, hqc⟩ := List.mem_map.mp (mem_of_mem_dedupFirst hkey)
  exact ⟨q, hq, hqc⟩

/-! ## Derived facts used by the claims -/

theorem sortQ_ne_nil {l : List ℚ} (h : l ≠ []) : sortQ l ≠ [] := by
  intro hnil
  have hlen := (sortQ_perm l).length_eq
  rw [hnil] at hlen
  exact h (List.length_eq_zero.mp hlen.symm)

theorem bucketOf_dominantMedian_ne_nil (prices : List PriceObs) (h : prices ≠ []) :
    bucketOf (buckets prices) (dominantMedian (buckets prices)) ≠ [] := by
  obtain ⟨q, hq, hqc⟩ := dominantMedian_mem prices h
  rw [bucketOf_buckets]
  intro hnil
  rw [List.map_eq_nil_iff] at hnil
  have hm : q ∈ prices.filter (fun p => p.currency == dominantMedian (buckets prices)) :=
    List.mem_filter.mpr ⟨hq, by simpa using hqc⟩
  rw [hnil] at hm
  simp at hm

theorem medianKept_ne_nil (prices : List PriceObs) (h : prices ≠ []) :
    medianKept prices ≠ [] := by
  unfold medianKept
  exact trimmedAmounts_ne_nil (sortQ_ne_nil (bucketOf_dominantMedian_ne_nil prices h))

/-- Every kept amount of the median aggregation is the amount of some input
observation (of the dominant currency). -/
theorem mem_medianKept {prices : List PriceObs} {x : ℚ} (hx : x ∈ medianKept prices) :
    ∃ q ∈ prices, q.amount = x := by
  unfold medianKept at hx
  have h1 := (trimmedAmounts_sublist _).subset hx
  have h2 := (sortQ_perm _).mem_iff.mp h1
  rw [bucketOf_buckets] at h2
  obtain ⟨q, hq, rfl⟩ := List.mem_map.mp h2
  exact ⟨q, (List.mem_filter.mp hq).1, rfl⟩

/-- The sorted slice used by the lowest aggregation consists of input
observations of the dominant currency. -/
theorem mem_lowestSorted {prices : List PriceObs} {q : PriceObs}
    (hq : q ∈ lowestSorted prices) :
    q ∈ prices ∧ q.currency = dominantLowest prices := by
  unfold lowestSorted at hq
  have h1 := (sortObs_perm _).mem_iff.mp hq
  have h2 := List.mem_filter.mp h1
  exact ⟨h2.1, by simpa using h2.2⟩

theorem lowestSorted_ne_nil (prices : List PriceObs) (h : prices ≠ []) :
    lowestSorted prices ≠ [] := by
  obtain ⟨q, hq, hqc⟩ := dominantLowest_mem prices h
  unfold lowestSorted
  intro hnil
  have hm : q ∈ prices.filter (fun p => p.currency == dominantLowest prices) :=
    List.mem_filter.mpr ⟨hq, by simpa using hqc⟩
  have := (sortObs_perm _).mem_iff.mpr hm
  rw [hnil] at this
  simp at this

/-- A currency with at least one observation owns a bucket whose size is its
observation count. -/
theorem buckets_entry_of_count_pos {prices : List PriceObs} {c : String}
    (hc : 0 < currencyCount prices c) :
    ∃ (j : ℕ) (blc : List ℚ), (buckets prices)[j]? = some (c, blc) ∧
      blc.length = currencyCount prices c := by
  have hne : prices.filter (fun p => p.currency == c) ≠ [] := by
    intro hnil
    rw [currencyCount, hnil] at hc
    simp at hc
  obtain ⟨q, hq⟩ := List.exists_mem_of_ne_nil _ hne
  have hcurr : q.currency = c := by simpa using (List.mem_filter.mp hq).2
  have hkey : c ∈ (buckets prices).map Prod.fst := by
    rw [keys_buckets]
    exact mem_dedupFirst_of_mem
      (List.mem_map.mpr ⟨q, (List.mem_filter.mp hq).1, hcurr⟩) (by simp)
  obtain ⟨b, hbmem, hbfst⟩ := List.mem_map.mp hkey
  have hb' : (c, b.2) ∈ buckets prices := by
    rw [← hbfst, Prod.mk.eta]
    exact hbmem
  obtain ⟨j, hjlt, hjget⟩ := List.mem_iff_getElem.mp hb'
  refine ⟨j, b.2, ?_, ?_⟩
  · rw [List.getElem?_eq_getElem hjlt, hjget]
  · rw [mem_buckets_content hb', List.length_map]
    rfl

/-- The dominant currency of the median aggregation is the first currency, in
first-encountered order, whose observation count is maximal. -/
theorem dominantMedian_argmax (prices : List PriceObs) (h : prices ≠ []) :
    (∃ q ∈ prices, q.currency = dominantMedian (buckets prices)) ∧
    (∀ c, currencyCount prices c ≤ currencyCount prices (dominantMedian (buckets prices))) ∧
    (∀ c, currencyCount prices (dominantMedian (buckets prices)) ≤ currencyCount prices c →
      ∃ (i j : ℕ), i ≤ j ∧
        (dedupFirst (prices.map (fun p => p.currency)) [])[i]? =
          some (dominantMedian (buckets prices)) ∧
        (dedupFirst (prices.map (fun p => p.currency)) [])[j]? = some c) := by
  obtain ⟨i, bl, hget, hmax, hprev⟩ := dominant_spec prices h ""
  rw [← dominantMedian_eq_foldl] at hget
  have hdmem : (dominantMedian (buckets prices), bl) ∈ buckets prices := List.getElem?_mem hget
  have hdlen : bl.length = currencyCount prices (dominantMedian (buckets prices)) := by
    rw [mem_buckets_content hdmem, List.length_map]
    rfl
  have hdpos : 1 ≤ bl.length := buckets_entry_pos hdmem
  refine ⟨dominantMedian_mem prices h, ?_, ?_⟩
  · intro c
    rcases Nat.eq_zero_or_pos (currencyCount prices c) with hc0 | hcpos
    · omega
    · obtain ⟨j, blc, hj, hlen⟩ := buckets_entry_of_count_pos hcpos
      have hle := hmax j (c, blc) hj
      have : blc.length ≤ bl.length := hle
      omega
  · intro c hle
    have hcpos : 0 < currencyCount prices c := by omega
    obtain ⟨j, blc, hj, hlen⟩ := buckets_entry_of_count_pos hcpos
    have hij : i ≤ j := by
      by_contra hlt
      push_neg at hlt
      have := hprev j (c, blc) hlt hj
      have h2 : blc.length < bl.length := this
      omega
    refine ⟨i, j, hij, ?_, ?_⟩
    · rw [← keys_buckets, List.getElem?_map, hget]
      rfl
    · rw [← keys_buckets, List.getElem?_map, hj]
      rfl

/-- The median aggregation, phrased over the filtered amounts rather than the
buckets map. -/
theorem medianKept_filter_form (prices : List PriceObs) :
    medianKept prices =
      trimmedAmounts (sortQ
        ((prices.filter (fun p => p.currency == dominantMedian (buckets prices))).map
          (fun p => p.amount))) := by
  unfold medianKept
  rw [bucketOf_buckets]

theorem medianKept_sorted (prices : List PriceObs) :
    (medianKept prices).Sorted (fun a b => a ≤ b) := by
  unfold medianKept
  exact trimmedAmounts_sorted (sortQ_sorted _)

/-! ### Closed `Math.round` evaluations -/

theorem jsRound_one : jsRound 1 = 1 := by
  rw [show (1 : ℚ) = ((1 : ℤ) : ℚ) by norm_num]
  exact jsRound_intCast 1

theorem jsRound_four : jsRound 4 = 4 := by
  rw [show (4 : ℚ) = ((4 : ℤ) : ℚ) by norm_num]
  exact jsRound_intCast 4

theorem jsRound_six : jsRound 6 = 6 := by
  rw [show (6 : ℚ) = ((6 : ℤ) : ℚ) by norm_num]
  exact jsRound_intCast 6

theorem jsRound_threeHalves : jsRound (3/2) = 2 := by
  unfold jsRound
  rw [show (3/2 + 1/2 : ℚ) = ((2 : ℤ) : ℚ) by norm_num]
  exact Int.floor_intCast 2

/-! ### Facts about `statEntriesExpected` -/

theorem statEntriesExpected_congr {ms : List Mod} {s1 s2 : List String}
    (h : ∀ x, x ∈ s1 ↔ x ∈ s2) :
    statEntriesExpected ms s1 = statEntriesExpected ms s2 := by
  induction ms generalizing s1 s2 with
  | nil => rfl
  | cons m t ih =>
    cases hsid : m.statId with
    | none =>
      simp only [statEntriesExpected, hsid]
      exact ih h
    | some id =>
      simp only [statEntriesExpected, hsid]
      by_cases hid : id = ""
      · rw [if_pos (Or.inl hid), if_pos (Or.inl hid)]
        exact ih h
      · by_cases hmem : id ∈ s1
        · rw [if_pos (Or.inr hmem), if_pos (Or.inr ((h id).mp hmem))]
          exact ih h
        · rw [if_neg (by tauto), if_neg (by rw [← h id] at *; tauto)]
          congr 1
          exact ih (fun y => by simp only [List.mem_cons]; exact or_congr Iff.rfl (h y))

theorem addStat_foldl (ms : List Mod) : ∀ (seen : List String) (es : List StatEntry),
    (ms.foldl addStatFromMod (seen, es)).2 = es ++ statEntriesExpected ms seen := by
  induction ms with
  | nil => intro seen es; simp [statEntriesExpected]
  | cons m t ih =>
    intro seen es
    rw [List.foldl_cons]
    cases hsid : m.statId with
    | none =>
      simp only [addStatFromMod, statEntriesExpected, hsid]
      exact ih seen es
    | some id =>
      simp only [addStatFromMod, statEntriesExpected, hsid]
      by_cases hid : id = ""
      · rw [if_pos hid, if_pos (Or.inl hid)]
        exact ih seen es
      · rw [if_neg hid]
        by_cases hmem : id ∈ seen
        · rw [if_pos hmem, if_pos (Or.inr hmem)]
          exact ih seen es
        · rw [if_neg hmem, if_neg (by tauto)]
          rw [ih, List.append_assoc, List.singleton_append]
          congr 2
          exact statEntriesExpected_congr (fun y => by simp [or_comm])

theorem statEntriesExpected_shape (ms : List Mod) : ∀ seen, ∀ e ∈ statEntriesExpected ms seen,
    e.type = "and" ∧ e.disabled = false ∧ e.valueMin = none ∧ e.valueMax = none ∧
      e.id ≠ "" ∧ e.id ∉ seen := by
  induction ms with
  | nil => intro seen e he; simp [statEntriesExpected] at he
  | cons m t ih =>
    intro seen e he
    cases hsid : m.statId with
    | none =>
      simp only [statEntriesExpected, hsid] at he
      exact ih seen e he
    | some id =>
      simp only [statEntriesExpected, hsid] at he
      by_cases hid : id = ""
      · rw [if_pos (Or.inl hid)] at he
        exact ih seen e he
      · by_cases hmem : id ∈ seen
        · rw [if_pos (Or.inr hmem)] at he
          exact ih seen e he
        · rw [if_neg (by tauto)] at he
          rcases List.mem_cons.mp he with rfl | he
          · exact ⟨rfl, rfl, rfl, rfl, hid, hmem⟩
          · have hrec := ih (id :: seen) e he
            refine ⟨hrec.1, hrec.2.1, hrec.2.2.1, hrec.2.2.2.1, hrec.2.2.2.2.1, ?_⟩
            intro hc
            exact hrec.2.2.2.2.2 (List.mem_cons_of_mem _ hc)

theorem statEntriesExpected_nodup (ms : List Mod) :
    ∀ seen, ((statEntriesExpected ms seen).map (fun e => e.id)).Nodup := by
  induction ms with
  | nil => intro seen; simp [statEntriesExpected]
  | cons m t ih =>
    intro seen
    cases hsid : m.statId with
    | none =>
      simp only [statEntriesExpected, hsid]
      exact ih seen
    | some id =>
      simp only [statEntriesExpected, hsid]
      by_cases hid : id = ""
      · rw [if_pos (Or.inl hid)]
        exact ih seen
      · by_cases hmem : id ∈ seen
        · rw [if_pos (Or.inr hmem)]
          exact ih seen
        · rw [if_neg (by tauto), List.map_cons]
          refine List.nodup_cons.mpr ⟨?_, ih _⟩
          intro hc
          obtain ⟨e, he, heid⟩ := List.mem_map.mp hc
          have hshape := (statEntriesExpected_shape t (id :: seen) e he).2.2.2.2.2
          exact hshape (heid ▸ List.mem_cons_self _ _)

/-! ## Claim C1 -/

/-- C1 counterexample: with a query carrying a non-empty stat group and an
item-level filter, and an upstream answering `Invalid query` on every attempt,
`performSearchWithRetries` makes exactly 2 attempts - not the 4 the claim
states - and the second attempt still carries the stat group (it is never
stripped): the trace is the original query followed by the query with only
the item-level and socket filters removed, then terminal failure. -/
theorem claim1_counterexample :
    invalidQueryEx.stats = [⟨"and", [⟨"explicit.stat_123", "and", false, none, none⟩]⟩] ∧
    invalidQueryEx.ilvl = some 84 ∧
    performSearchWithRetries alwaysInvalidQuery invalidQueryEx 5 =
      ([invalidQueryEx, { invalidQueryEx with ilvl := none }], none) ∧
    (performSearchWithRetries alwaysInvalidQuery invalidQueryEx 5).1.length = 2 ∧
    ({ invalidQueryEx with ilvl := none } : QueryV1).stats = invalidQueryEx.stats := by
  refine ⟨by decide, by decide, by decide, by decide, by decide⟩

/-- C1 (amended): for every query with a non-empty stat-filter group and an
item-level filter, if the upstream answers every attempt with an
`Invalid query` error, the search performs exactly 2 attempts in this order:
(1) the original query, (2) the query with the item-level and socket/link
filters stripped - the stat-filter group is never stripped - and then fails
terminally; the single relaxation strips both filters together and is applied
only on a first-attempt failure. -/
theorem claim1_theorem (q : QueryV1)
    (hstats : ∃ g ∈ q.stats, g.filters ≠ []) (hilvl : q.ilvl.isSome) :
    performSearchWithRetries alwaysInvalidQuery q 5 =
      ([q, stripInvalidQueryFilters q], none) ∧
    (stripInvalidQueryFilters q).stats = q.stats ∧
    (stripInvalidQueryFilters q).ilvl = none ∧
    (stripInvalidQueryFilters q).socketLinksMin = none := by
  obtain ⟨qt, qr, qi, qil, qs, qst⟩ := q
  cases qil with
  | none => simp at hilvl
  | some v =>
    cases qs with
    | none => exact ⟨rfl, rfl, rfl, rfl⟩
    | some w => exact ⟨rfl, rfl, rfl, rfl⟩

/-- C1 witness: the amended claim at the concrete query `invalidQueryEx`. -/
theorem claim1_witness :
    performSearchWithRetries alwaysInvalidQuery invalidQueryEx 5 =
      ([invalidQueryEx, stripInvalidQueryFilters invalidQueryEx], none) ∧
    (stripInvalidQueryFilters invalidQueryEx).stats = invalidQueryEx.stats ∧
    (stripInvalidQueryFilters invalidQueryEx).ilvl = none ∧
    (stripInvalidQueryFilters invalidQueryEx).socketLinksMin = none :=
  claim1_theorem invalidQueryEx ⟨⟨"and", [⟨"explicit.stat_123", "and", false, none, none⟩]⟩,
    by decide, by decide⟩ (by decide)

/-! ## Claim C3 -/

/-- C3 counterexample: the stat-filter construction of `buildSearchQuery` in
src/index.js performs no namespace validation: a mod whose `statId` is
`totally_invalid` - which carries none of the valid namespaces - is not
dropped but becomes a stat-filter entry. -/
theorem claim3_counterexample :
    isNamespacedStatId "totally_invalid" = false ∧
    (buildSearchQuery invalidStatItem).stats =
      [⟨"and", [⟨"totally_invalid", "and", false, none, none⟩]⟩] := by
  refine ⟨by decide, by decide⟩

/-- C3 (amended): for every ItemDescription, the built query's stat-filter
group of the src/index.js builder contains exactly one entry per distinct
non-empty `statId` and nothing else - no namespace validation is performed;
entries appear in input order with implicit mods before explicit mods, the
first occurrence wins on duplicate statIds, and all entries sit in a single
AND-combined group with `type: 'and'`, `disabled: false` and value bounds
left null. -/
theorem claim3_theorem : ∀ item : ItemDescription,
    (buildSearchQuery item).stats =
      [⟨"and", statEntriesExpected (item.implicits ++ item.explicits) []⟩] ∧
    ((statEntriesExpected (item.implicits ++ item.explicits) []).map (fun e => e.id)).Nodup ∧
    (∀ e ∈ statEntriesExpected (item.implicits ++ item.explicits) [],
      e.type = "and" ∧ e.disabled = false ∧ e.valueMin = none ∧ e.valueMax = none ∧
        e.id ≠ "") := by
  intro item
  refine ⟨?_, statEntriesExpected_nodup _ _, ?_⟩
  · show [(⟨"and", ((item.implicits ++ item.explicits).foldl addStatFromMod ([], [])).2⟩ :
      StatGroup)] = _
    rw [addStat_foldl]
    rfl
  · intro e he
    have h := statEntriesExpected_shape _ _ e he
    exact ⟨h.1, h.2.1, h.2.2.1, h.2.2.2.1, h.2.2.2.2.1⟩

/-- C3 witness: duplicated statIds collapse to one entry, in first-occurrence
order, with null bounds. -/
theorem claim3_witness :
    (buildSearchQuery dupStatItem).stats =
      [⟨"and", [⟨"explicit.a", "and", false, none, none⟩,
        ⟨"explicit.b", "and", false, none, none⟩]⟩] := by
  have h := (claim3_theorem dupStatItem).1
  rw [h]
  decide

/-! ## Claim C5 -/

/-- C5 counterexample: for a Unique item with a present name and no base
type, the src/index.js builder does not set any name term - its query has no
name member at all and the type term stays empty; the item's name appears
nowhere in the built query. -/
theorem claim5_counterexample :
    rarityIsUnique hhItem = true ∧
    presentStr hhItem.name = some "Headhunter" ∧
    buildSearchQuery hhItem = ⟨none, some "unique", [], none, none, [⟨"and", []⟩]⟩ := by
  refine ⟨by decide, by decide, by decide⟩

/-- C5 (amended): the name/type selection of the claim holds for the
src/unnamed/part_000 builder: a Unique-rarity item with a truthy name gets
`query.name = item.name` and, when the base type is present,
`query.type = item.baseType`; every other item gets no name and
`query.type = baseType` when present, else the name as the type term.  The
src/index.js builder instead never emits a name term and sets its type term
from the base type alone, regardless of rarity and name. -/
theorem claim5_theorem :
    (∀ item : ItemDescription,
      (rarityIsUnique item = true ∧ (presentStr item.name).isSome →
        (nameTypeSelection item).1 = presentStr item.name ∧
        (nameTypeSelection item).2 = presentStr item.baseType) ∧
      (¬(rarityIsUnique item = true ∧ (presentStr item.name).isSome) →
        (nameTypeSelection item).1 = none ∧
        (nameTypeSelection item).2 = (presentStr item.baseType).or (presentStr item.name))) ∧
    (∀ item : ItemDescription, (buildSearchQuery item).type = presentStr item.baseType) := by
  constructor
  · intro item
    constructor
    · intro ⟨hu, hn⟩
      unfold nameTypeSelection
      rw [if_pos hu]
      exact ⟨rfl, rfl⟩
    · intro hneg
      unfold nameTypeSelection
      by_cases hu : rarityIsUnique item = true
      · rw [if_pos hu]
        have hn : presentStr item.name = none := by
          cases hname : presentStr item.name with
          | none => rfl
          | some n => exact absurd ⟨hu, by rw [hname]; rfl⟩ hneg
        rw [hn]
        cases hb : presentStr item.baseType <;> simp
      · rw [if_neg hu]
        cases hb : presentStr item.baseType with
        | some b => simp
        | none =>
          cases hn : presentStr item.name with
          | some n => simp
          | none => simp
  · intro item
    rfl

/-- C5 witness: the part_000 name/type selection on the concrete Unique item
`hhItem`, via the amended theorem. -/
theorem claim5_witness :
    nameTypeSelection hhItem = (some "Headhunter", none) := by
  obtain ⟨h1, h2⟩ := (claim5_theorem.1 hhItem).1 ⟨by decide, by decide⟩
  exact Prod.ext (h1.trans (by decide)) (h2.trans (by decide))

/-! ## Claim C6 -/

/-- C6 counterexample: a successful search answer with zero result IDs but a
reported total of 5 yields a response whose `totalResults` is the literal 0,
not the search stage's reported total. -/
theorem claim6_counterexample :
    (SearchData.mk (some []) "q1" (some 5)).total = some 5 ∧
    handleAfterSearch "Standard" none ⟨some [], "q1", some 5⟩ [] =
      (.okRes ⟨0, none, none, none, []⟩
        "https://www.pathofexile.com/trade/search/Standard/q1", 0) ∧
    (5 : Nat) ≠ 0 := by
  refine ⟨by decide, by decide, by decide⟩

/-- C6 (amended): whenever the search stage succeeds but yields zero result
IDs, the pipeline returns an empty PriceSummary (all-absent min/median/max
and an empty sample) with zero listing-fetch calls - independently of what a
fetch would have returned - alongside the searchUrl built from the league and
the returned query identifier; `totalResults` is the literal 0, not the
search stage's reported total. -/
theorem claim6_theorem (league : String) (mode : Option String)
    (searchData : SearchData) (fetched : List RawListing) (ids : List String)
    (hres : searchData.result = some ids) (hnil : ids = []) :
    handleAfterSearch league mode searchData fetched =
      (.okRes ⟨0, none, none, none, []⟩ (searchUrlFor league searchData.id), 0) := by
  subst hnil
  unfold handleAfterSearch
  rw [hres]
  rfl

/-- C6 witness: the amended claim at a concrete empty search result with a
non-zero reported total, a mode, and a non-empty would-be fetch answer. -/
theorem claim6_witness :
    handleAfterSearch "Standard" (some "lowest") ⟨some [], "abc", some 7⟩
        [⟨some ⟨some 1, some "chaos"⟩⟩] =
      (.okRes ⟨0, none, none, none, []⟩ (searchUrlFor "Standard" "abc"), 0) :=
  claim6_theorem "Standard" (some "lowest") ⟨some [], "abc", some 7⟩
    [⟨some ⟨some 1, some "chaos"⟩⟩] [] rfl rfl

/-! ## Claim C7 -/

/-- C7 counterexample: in `lowest` mode the minimum is taken over the
dominant-currency slice, not by strict numeric ordering over all price
observations: with a divine observation of amount 1 next to chaos
observations of amounts 5 and 6, the returned minimum is the chaos
observation of amount 5 although an observation of amount 1 is present. -/
theorem claim7_counterexample :
    (statsForMode (some "lowest") mixedLowSample).min = some ⟨5, "chaos"⟩ ∧
    (⟨1, "divine"⟩ : PriceObs) ∈ mixedLowSample ∧
    (1 : ℚ) < 5 := by
  refine ⟨by decide, by decide, by decide⟩

/-- C7 (amended): the mode parameter selects between the two aggregation
variants (`lowest` versus the median default).  `lowest` mode performs no
outlier trimming - its min and max are the least and greatest amounts of the
whole dominant-currency slice however large it is - but it does apply
currency dominance: min and max are dominant-currency observations, and the
full input is returned as the sample. -/
theorem claim7_theorem :
    (∀ (mode : Option String) (prices : List PriceObs),
      statsForMode mode prices =
        if mode = some "lowest" then calculatePriceStatsLowest prices
        else calculatePriceStatsMedian prices) ∧
    (∀ prices : List PriceObs, prices ≠ [] →
      ∃ mn mx : PriceObs,
        (calculatePriceStatsLowest prices).min = some mn ∧
        (calculatePriceStatsLowest prices).max = some mx ∧
        mn.currency = dominantLowest prices ∧
        mx.currency = dominantLowest prices ∧
        mn ∈ prices ∧ mx ∈ prices ∧
        (∀ q ∈ prices, q.currency = dominantLowest prices →
          mn.amount ≤ q.amount ∧ q.amount ≤ mx.amount) ∧
        (calculatePriceStatsLowest prices).results = prices) := by
  constructor
  · intro mode prices
    rfl
  · intro prices h
    have hne := lowestSorted_ne_nil prices h
    have hlen : 0 < (lowestSorted prices).length := List.length_pos.mpr hne
    have h0 : (lowestSorted prices)[0]? = some ((lowestSorted prices).get ⟨0, hlen⟩) :=
      List.getElem?_eq_getElem hlen
    have hNlt : (lowestSorted prices).length - 1 < (lowestSorted prices).length := by omega
    have hN : (lowestSorted prices)[(lowestSorted prices).length - 1]? =
        some ((lowestSorted prices).get ⟨(lowestSorted prices).length - 1, hNlt⟩) :=
      List.getElem?_eq_getElem hNlt
    set mn := (lowestSorted prices).get ⟨0, hlen⟩ with hmn
    set mx := (lowestSorted prices).get ⟨(lowestSorted prices).length - 1, hNlt⟩ with hmx
    have hmnmem : mn ∈ lowestSorted prices := List.getElem?_mem h0
    have hmxmem : mx ∈ lowestSorted prices := List.getElem?_mem hN
    have hmn2 := mem_lowestSorted hmnmem
    have hmx2 := mem_lowestSorted hmxmem
    refine ⟨mn, mx, ?_, ?_, hmn2.2, hmx2.2, hmn2.1, hmx2.1, ?_, ?_⟩
    · rw [calcLowest_eq prices h]
      exact h0
    · rw [calcLowest_eq prices h]
      exact hN
    · intro q hq hqc
      have hqmem : q ∈ lowestSorted prices := by
        unfold lowestSorted
        exact (sortObs_perm _).mem_iff.mpr
          (List.mem_filter.mpr ⟨hq, by simpa using hqc⟩)
      constructor
      · exact pairwise_first_rel (sortObs_sorted _) h0 q hqmem
      · exact pairwise_last_rel (sortObs_sorted _) hN q hqmem
    · rw [calcLowest_eq prices h]

/-- C7 witness: the amended claim's lowest-mode bounds at the concrete sample
`mixedLowSample`. -/
theorem claim7_witness :
    (calculatePriceStatsLowest mixedLowSample).results = mixedLowSample := by
  obtain ⟨mn, mx, -, -, -, -, -, -, -, hres⟩ :=
    claim7_theorem.2 mixedLowSample (by decide)
  exact hres

/-! ## Claim C8 -/

/-- C8 counterexample: there is no two-currency allow-list: for every pair of
currencies, some listing is retained by `parsePrice` whose currency is
neither of the two. -/
theorem claim8_counterexample :
    ¬ ∃ c1 c2 : String, ∀ (l : RawListing) (o : PriceObs),
        parsePrice l = some o → o.currency = c1 ∨ o.currency = c2 := by
  rintro ⟨c1, c2, h⟩
  have ha := h ⟨some ⟨some 1, some "a"⟩⟩ ⟨1, "a"⟩ (by decide)
  have hb := h ⟨some ⟨some 1, some "b"⟩⟩ ⟨1, "b"⟩ (by decide)
  have hc := h ⟨some ⟨some 1, some "c"⟩⟩ ⟨1, "c"⟩ (by decide)
  have hab : ("a" : String) ≠ "b" := by decide
  have hac : ("a" : String) ≠ "c" := by decide
  have hbc : ("b" : String) ≠ "c" := by decide
  rcases ha with ha | ha <;> rcases hb with hb | hb <;> rcases hc with hc | hc
  · exact hab (ha.trans hb.symm)
  · exact hab (ha.trans hb.symm)
  · exact hac (ha.trans hc.symm)
  · exact hbc (hb.trans hc.symm)
  · exact hbc (hb.trans hc.symm)
  · exact hac (ha.trans hc.symm)
  · exact hab (ha.trans hb.symm)
  · exact hab (ha.trans hb.symm)

/-- C8 (amended): `parsePrice` retains exactly the listings with a present
price object, a numeric amount and a non-empty (after trimming) currency
string; any such currency is accepted - there is no allow-list - and every
malformed listing is silently mapped to `none`, never an error. -/
theorem claim8_theorem :
    (∀ (l : RawListing) (o : PriceObs),
      parsePrice l = some o ↔
        ∃ p, l.price = some p ∧ p.amount = some o.amount ∧
          jsTrim (p.currency.getD "") = o.currency ∧ o.currency ≠ "") ∧
    (∀ (a : ℚ) (c : String), jsTrim c = c → c ≠ "" →
      parsePrice ⟨some ⟨some a, some c⟩⟩ = some ⟨a, c⟩) := by
  constructor
  · intro l o
    cases hp : l.price with
    | none => simp [parsePrice, hp]
    | some p =>
      cases hamt : p.amount with
      | none => simp [parsePrice, hp, hamt]
      | some a =>
        simp only [parsePrice, hp, hamt, Option.some.injEq, exists_eq_left']
        by_cases hcur : jsTrim (p.currency.getD "") = ""
        · rw [if_pos hcur]
          constructor
          · intro hfalse
            exact Option.noConfusion hfalse
          · rintro ⟨ha1, hc1, hne⟩
            exact absurd (hc1.symm.trans hcur) hne
        · rw [if_neg hcur]
          constructor
          · intro he
            rw [Option.some.injEq] at he
            subst he
            exact ⟨rfl, rfl, hcur⟩
          · rintro ⟨ha1, hc1, hne⟩
            rw [Option.some.injEq]
            cases o with
            | mk oa oc =>
              simp only at ha1 hc1
              rw [ha1, hc1]
  · intro a c h1 h2
    unfold parsePrice
    simp only [Option.getD_some]
    rw [h1, if_neg h2]

/-- C8 witness: a currency outside any two-element vocabulary is retained. -/
theorem claim8_witness :
    parsePrice ⟨some ⟨some 3, some "exalted"⟩⟩ = some ⟨3, "exalted"⟩ :=
  claim8_theorem.2 3 "exalted" (by decide) (by decide)

/-! ## Claim C9 -/

/-- Sortedness of the lowest-mode slice. -/
theorem lowestSorted_sorted (prices : List PriceObs) :
    (lowestSorted prices).Sorted obsLE := by
  unfold lowestSorted
  exact sortObs_sorted _

/-- C9: for every input to either aggregation mode, the returned summary has
min, median and max either all present (non-empty sample) or all absent
(empty sample), never only some of them, and on an empty sample the
returned sample sequence is also empty. -/
theorem claim9_theorem : ∀ prices : List PriceObs,
    ((calculatePriceStatsMedian prices).min.isSome ↔ prices ≠ []) ∧
    ((calculatePriceStatsMedian prices).median.isSome ↔ prices ≠ []) ∧
    ((calculatePriceStatsMedian prices).max.isSome ↔ prices ≠ []) ∧
    ((calculatePriceStatsLowest prices).min.isSome ↔ prices ≠ []) ∧
    ((calculatePriceStatsLowest prices).median.isSome ↔ prices ≠ []) ∧
    ((calculatePriceStatsLowest prices).max.isSome ↔ prices ≠ []) ∧
    (calculatePriceStatsMedian []).results = [] ∧
    (calculatePriceStatsLowest []).results = [] := by
  intro prices
  by_cases h : prices = []
  · subst h
    refine ⟨?_, ?_, ?_, ?_, ?_, ?_, rfl, rfl⟩ <;>
      simp [calculatePriceStatsMedian, calculatePriceStatsLowest]
  · have hkeptne := medianKept_ne_nil prices h
    have hklen : 0 < (medianKept prices).length := List.length_pos.mpr hkeptne
    have hlne := lowestSorted_ne_nil prices h
    have hllen : 0 < (lowestSorted prices).length := List.length_pos.mpr hlne
    refine ⟨?_, ?_, ?_, ?_, ?_, ?_, rfl, rfl⟩
    · refine iff_of_true ?_ h
      rw [calcMedian_eq prices h]
      rw [List.getElem?_eq_getElem hklen]
      rfl
    · refine iff_of_true ?_ h
      rw [calcMedian_eq prices h]
      obtain ⟨m, hm⟩ := Option.isSome_iff_exists.mp (medianAmountOf_isSome hkeptne)
      rw [hm]
      rfl
    · refine iff_of_true ?_ h
      rw [calcMedian_eq prices h]
      rw [List.getElem?_eq_getElem (show (medianKept prices).length - 1 <
        (medianKept prices).length by omega)]
      rfl
    · refine iff_of_true ?_ h
      rw [calcLowest_eq prices h]
      rw [List.getElem?_eq_getElem hllen]
      rfl
    · refine iff_of_true ?_ h
      rw [calcLowest_eq prices h]
      have hmapne : (lowestSorted prices).map (fun p => p.amount) ≠ [] := by
        intro hc
        exact hlne (List.map_eq_nil_iff.mp hc)
      obtain ⟨m, hm⟩ := Option.isSome_iff_exists.mp (medianAmountOf_isSome hmapne)
      rw [hm]
      rfl
    · refine iff_of_true ?_ h
      rw [calcLowest_eq prices h]
      rw [List.getElem?_eq_getElem (show (lowestSorted prices).length - 1 <
        (lowestSorted prices).length by omega)]
      rfl

/-! ## Claim C2 -/

/-- C2 counterexample: for the single observation of amount 3/2 the kept set
is [3/2], whose middle element is 3/2, but the code returns
`Math.round(3/2) = 2` as the median - the claim's "median is the middle
element for odd kept length" fails on non-integral amounts. -/
theorem claim2_counterexample :
    (calculatePriceStatsMedian [⟨3/2, "chaos"⟩]).median = some ⟨2, "chaos"⟩ ∧
    medianKept [⟨3/2, "chaos"⟩] = [3/2] ∧
    (2 : ℚ) ≠ 3/2 := by
  have h : ([⟨3/2, "chaos"⟩] : List PriceObs) ≠ [] := by simp
  have hd : dominantMedian (buckets [⟨3/2, "chaos"⟩]) = "chaos" := by
    simp [buckets, addAmount, dominantMedian, pickBest]
  have hk : medianKept [⟨3/2, "chaos"⟩] = [3/2] := by
    rw [medianKept_filter_form, trimmedAmounts_eq, hd]
    simp [sortQ, List.insertionSort]
  have hm : medianAmountOf [(3/2 : ℚ)] = some (3/2) := by
    simp [medianAmountOf]
  refine ⟨?_, hk, by norm_num⟩
  rw [calcMedian_eq _ h, hk, hd, hm]
  simp [jsRound_threeHalves]

/-- C2 (amended): in median mode the aggregator sorts the dominant-currency
amounts ascending; if the bucket has n > 10 observations it keeps exactly the
slice from index floor(n*0.1) to exclusive index ceil(n*0.9) (equal to the
integer slice [n/10, (9n+9)/10)), smaller buckets being kept whole; min is
the smallest kept amount and max the largest; the median amount is
`Math.round` of the middle element for odd kept length, or of the arithmetic
mean of the two middle elements for even kept length (so for integral amounts
the odd case is the middle element itself).  In particular, 11 chaos
observations [1..11] give min=2, median=6, max=10. -/
theorem claim2_theorem :
    (∀ prices : List PriceObs, prices ≠ [] →
      ∃ mnA mxA m : ℚ,
        (calculatePriceStatsMedian prices).min =
          some ⟨mnA, dominantMedian (buckets prices)⟩ ∧
        (calculatePriceStatsMedian prices).median =
          some ⟨((jsRound m : ℤ) : ℚ), dominantMedian (buckets prices)⟩ ∧
        (calculatePriceStatsMedian prices).max =
          some ⟨mxA, dominantMedian (buckets prices)⟩ ∧
        medianAmountOf (medianKept prices) = some m ∧
        (sortQ (dominantAmounts prices)).Sorted (fun a b => a ≤ b) ∧
        (sortQ (dominantAmounts prices)).Perm (dominantAmounts prices) ∧
        medianKept prices =
          (if 10 < (dominantAmounts prices).length then
            ((sortQ (dominantAmounts prices)).drop ((dominantAmounts prices).length / 10)).take
              ((9 * (dominantAmounts prices).length + 9) / 10 -
                (dominantAmounts prices).length / 10)
          else sortQ (dominantAmounts prices)) ∧
        mnA ∈ medianKept prices ∧ (∀ x ∈ medianKept prices, mnA ≤ x) ∧
        mxA ∈ medianKept prices ∧ (∀ x ∈ medianKept prices, x ≤ mxA)) ∧
    calculatePriceStatsMedian chaosSample11 =
      ⟨some ⟨2, "chaos"⟩, some ⟨6, "chaos"⟩, some ⟨10, "chaos"⟩, chaosSample11⟩ := by
  constructor
  · intro prices h
    have hne := medianKept_ne_nil prices h
    have hlen : 0 < (medianKept prices).length := List.length_pos.mpr hne
    have h0 := List.getElem?_eq_getElem hlen
    have hNlt : (medianKept prices).length - 1 < (medianKept prices).length := by omega
    have hN := List.getElem?_eq_getElem hNlt
    obtain ⟨m, hm⟩ := Option.isSome_iff_exists.mp (medianAmountOf_isSome hne)
    refine ⟨(medianKept prices).get ⟨0, hlen⟩,
      (medianKept prices).get ⟨(medianKept prices).length - 1, hNlt⟩, m,
      ?_, ?_, ?_, hm, sortQ_sorted _, sortQ_perm _, ?_,
      List.getElem?_mem h0, pairwise_first_rel (medianKept_sorted prices) h0,
      List.getElem?_mem hN, pairwise_last_rel (medianKept_sorted prices) hN⟩
    · rw [calcMedian_eq prices h, h0]
      rfl
    · rw [calcMedian_eq prices h, hm]
      rfl
    · rw [calcMedian_eq prices h, hN]
      rfl
    · rw [show medianKept prices = trimmedAmounts (sortQ (dominantAmounts prices)) from
        medianKept_filter_form prices, trimmedAmounts_eq, (sortQ_perm (dominantAmounts prices)).length_eq]
  · have h : chaosSample11 ≠ [] := by simp [chaosSample11]
    have hd : dominantMedian (buckets chaosSample11) = "chaos" := by decide
    have hk : medianKept chaosSample11 = [2, 3, 4, 5, 6, 7, 8, 9, 10] := by
      rw [medianKept_filter_form, trimmedAmounts_eq, hd]
      decide
    have hm : medianAmountOf [(2 : ℚ), 3, 4, 5, 6, 7, 8, 9, 10] = some 6 := by decide
    rw [calcMedian_eq _ h, hk, hd, hm]
    simp [jsRound_six]

/-- C2 witness: the amended general statement at a concrete one-element
sample. -/
theorem claim2_witness :
    (medianAmountOf (medianKept [⟨1, "chaos"⟩])).isSome = true := by
  obtain ⟨mnA, mxA, m, hmin, hmed, hmax, hm, hrest⟩ :=
    claim2_theorem.1 [⟨1, "chaos"⟩] (by simp)
  rw [hm]
  rfl

/-! ## Claim C4 -/

/-- C4 counterexample: no fixed primary currency breaks ties: for every
candidate currency c there is a tied two-currency sample containing c in
which the other - first-encountered - currency is chosen. -/
theorem claim4_counterexample :
    ¬ ∃ c : String, ∀ prices : List PriceObs, prices ≠ [] →
        (0 < currencyCount prices c ∧
          ∀ c', currencyCount prices c' ≤ currencyCount prices c) →
        dominantMedian (buckets prices) = c := by
  rintro ⟨c, h⟩
  have hne : ¬(c ++ "x" = c) := by
    intro hc
    have hlen := congrArg String.length hc
    rw [String.length_append] at hlen
    have hx : ("x" : String).length = 1 := rfl
    omega
  have hbeq : ((c ++ "x") == c) = false := by simpa using hne
  have hc1 : currencyCount [⟨1, c ++ "x"⟩, ⟨1, c⟩] c = 1 := by
    simp [currencyCount, List.filter, hbeq]
  have hcount : ∀ c', currencyCount [⟨1, c ++ "x"⟩, ⟨1, c⟩] c' ≤
      currencyCount [⟨1, c ++ "x"⟩, ⟨1, c⟩] c := by
    intro c'
    rw [hc1]
    by_cases h1 : (c ++ "x") = c'
    · by_cases h2 : c = c'
      · exact absurd (h1.trans h2.symm) hne
      · have b1 : ((c ++ "x") == c') = true := by simpa using h1
        have b2 : ((c : String) == c') = false := by simpa using h2
        simp [currencyCount, List.filter, b1, b2]
    · by_cases h2 : c = c'
      · have b1 : ((c ++ "x") == c') = false := by simpa using h1
        have b2 : ((c : String) == c') = true := by simpa using h2
        simp [currencyCount, List.filter, b1, b2]
      · have b1 : ((c ++ "x") == c') = false := by simpa using h1
        have b2 : ((c : String) == c') = false := by simpa using h2
        simp [currencyCount, List.filter, b1, b2]
  have hdom : dominantMedian (buckets [⟨1, c ++ "x"⟩, ⟨1, c⟩]) = c ++ "x" := by
    simp [buckets, addAmount, dominantMedian, pickBest, hbeq]
  have happ := h [⟨1, c ++ "x"⟩, ⟨1, c⟩] (by simp) ⟨by omega, hcount⟩
  rw [hdom] at happ
  exact hne happ

/-- C4 (amended): for every non-empty observation list, the median
aggregation computes min/median/max from the bucket of the currency with the
largest observation count, breaking ties by first-encountered order (never by
a primary-currency preference): the dominant currency occurs in the input,
its count is maximal, and every currency matching its count appears no
earlier in the first-encountered order of currencies.  The returned sample
always contains the full untrimmed observation list; with 3 divine and 7
chaos observations the chaos bucket supplies min/median/max while the sample
keeps all 10. -/
theorem claim4_theorem :
    (∀ prices : List PriceObs, prices ≠ [] →
      (∃ q ∈ prices, q.currency = dominantMedian (buckets prices)) ∧
      (∀ c, currencyCount prices c ≤
        currencyCount prices (dominantMedian (buckets prices))) ∧
      (∀ c, currencyCount prices (dominantMedian (buckets prices)) ≤
          currencyCount prices c →
        ∃ (i j : ℕ), i ≤ j ∧
          (dedupFirst (prices.map (fun p => p.currency)) [])[i]? =
            some (dominantMedian (buckets prices)) ∧
          (dedupFirst (prices.map (fun p => p.currency)) [])[j]? = some c) ∧
      (calculatePriceStatsMedian prices).results = prices ∧
      (∀ o : PriceObs, (calculatePriceStatsMedian prices).min = some o →
        o.currency = dominantMedian (buckets prices)) ∧
      (∀ o : PriceObs, (calculatePriceStatsMedian prices).median = some o →
        o.currency = dominantMedian (buckets prices)) ∧
      (∀ o : PriceObs, (calculatePriceStatsMedian prices).max = some o →
        o.currency = dominantMedian (buckets prices))) ∧
    calculatePriceStatsMedian divChaosSample =
      ⟨some ⟨1, "chaos"⟩, some ⟨4, "chaos"⟩, some ⟨7, "chaos"⟩, divChaosSample⟩ := by
  constructor
  · intro prices h
    obtain ⟨hmem, hmax, hfirst⟩ := dominantMedian_argmax prices h
    refine ⟨hmem, hmax, hfirst, ?_, ?_, ?_, ?_⟩
    · rw [calcMedian_eq prices h]
    · intro o ho
      rw [calcMedian_eq prices h] at ho
      obtain ⟨a, -, hoa⟩ := Option.map_eq_some'.mp ho
      rw [← hoa]
    · intro o ho
      rw [calcMedian_eq prices h] at ho
      obtain ⟨a, -, hoa⟩ := Option.map_eq_some'.mp ho
      rw [← hoa]
    · intro o ho
      rw [calcMedian_eq prices h] at ho
      obtain ⟨a, -, hoa⟩ := Option.map_eq_some'.mp ho
      rw [← hoa]
  · have h : divChaosSample ≠ [] := by simp [divChaosSample]
    have hd : dominantMedian (buckets divChaosSample) = "chaos" := by decide
    have hk : medianKept divChaosSample = [1, 2, 3, 4, 5, 6, 7] := by
      rw [medianKept_filter_form, trimmedAmounts_eq, hd]
      decide
    have hm : medianAmountOf [(1 : ℚ), 2, 3, 4, 5, 6, 7] = some 4 := by decide
    rw [calcMedian_eq _ h, hk, hd, hm]
    simp [jsRound_four]

/-- C4 witness: the amended statement instantiated at a concrete sample. -/
theorem claim4_witness :
    (calculatePriceStatsMedian [⟨5, "divine"⟩]).results = [⟨5, "divine"⟩] := by
  obtain ⟨-, -, -, hres, -⟩ := claim4_theorem.1 [⟨5, "divine"⟩] (by simp)
  exact hres

/-! ## Claim C10 -/

/-- Destructuring of the median aggregation's three statistics. -/
theorem calcMedian_fields {prices : List PriceObs} {mn md mx : PriceObs}
    (hmn : (calculatePriceStatsMedian prices).min = some mn)
    (hmd : (calculatePriceStatsMedian prices).median = some md)
    (hmx : (calculatePriceStatsMedian prices).max = some mx) :
    prices ≠ [] ∧
    ∃ a0 aN m : ℚ,
      (medianKept prices)[0]? = some a0 ∧
      (medianKept prices)[(medianKept prices).length - 1]? = some aN ∧
      medianAmountOf (medianKept prices) = some m ∧
      mn = ⟨a0, dominantMedian (buckets prices)⟩ ∧
      md = ⟨((jsRound m : ℤ) : ℚ), dominantMedian (buckets prices)⟩ ∧
      mx = ⟨aN, dominantMedian (buckets prices)⟩ := by
  have h : prices ≠ [] := by
    intro hc
    subst hc
    simp [calculatePriceStatsMedian] at hmn
  rw [calcMedian_eq prices h] at hmn hmd hmx
  obtain ⟨a0, h0, hmneq⟩ := Option.map_eq_some'.mp hmn
  obtain ⟨m, hm, hmdeq⟩ := Option.map_eq_some'.mp hmd
  obtain ⟨aN, hN, hmxeq⟩ := Option.map_eq_some'.mp hmx
  exact ⟨h, a0, aN, m, h0, hN, hm, hmneq.symm, hmdeq.symm, hmxeq.symm⟩

/-- Destructuring of the lowest aggregation's three statistics. -/
theorem calcLowest_fields {prices : List PriceObs} {mn md mx : PriceObs}
    (hmn : (calculatePriceStatsLowest prices).min = some mn)
    (hmd : (calculatePriceStatsLowest prices).median = some md)
    (hmx : (calculatePriceStatsLowest prices).max = some mx) :
    prices ≠ [] ∧
    ∃ m : ℚ,
      (lowestSorted prices)[0]? = some mn ∧
      (lowestSorted prices)[(lowestSorted prices).length - 1]? = some mx ∧
      medianAmountOf ((lowestSorted prices).map (fun p => p.amount)) = some m ∧
      md = ⟨((jsRound m : ℤ) : ℚ), dominantLowest prices⟩ := by
  have h : prices ≠ [] := by
    intro hc
    subst hc
    simp [calculatePriceStatsLowest] at hmn
  rw [calcLowest_eq prices h] at hmn hmd hmx
  obtain ⟨m, hm, hmdeq⟩ := Option.map_eq_some'.mp hmd
  exact ⟨h, m, hmn, hmx, hm, hmdeq.symm⟩

/-- C10 counterexample: on the single observation of amount 3/2 the median
mode returns min = max = 3/2 but median = Math.round(3/2) = 2, violating
median ≤ max. -/
theorem claim10_counterexample :
    (calculatePriceStatsMedian [⟨3/2, "chaos"⟩]).median = some ⟨2, "chaos"⟩ ∧
    (calculatePriceStatsMedian [⟨3/2, "chaos"⟩]).max = some ⟨3/2, "chaos"⟩ ∧
    ¬((2 : ℚ) ≤ 3/2) := by
  have h : ([⟨3/2, "chaos"⟩] : List PriceObs) ≠ [] := by simp
  have hd : dominantMedian (buckets [⟨3/2, "chaos"⟩]) = "chaos" := by
    simp [buckets, addAmount, dominantMedian, pickBest]
  have hk : medianKept [⟨3/2, "chaos"⟩] = [3/2] := by
    rw [medianKept_filter_form, trimmedAmounts_eq, hd]
    simp [sortQ, List.insertionSort]
  have hm : medianAmountOf [(3/2 : ℚ)] = some (3/2) := by
    simp [medianAmountOf]
  refine ⟨?_, ?_, by norm_num⟩
  · rw [calcMedian_eq _ h, hk, hd, hm]
    simp [jsRound_threeHalves]
  · rw [calcMedian_eq _ h, hk, hd]
    rfl

/-- C10 (amended): in both aggregation modes, whenever min, median and max
are present they all carry the same (dominant) currency; and whenever
additionally every observation amount is an integer, they satisfy
min.amount ≤ median.amount ≤ max.amount.  (For fractional amounts the
rounding of the median can exceed the maximum, as the counterexample
shows.) -/
theorem claim10_theorem :
    (∀ (prices : List PriceObs) (mn md mx : PriceObs),
      ((calculatePriceStatsMedian prices).min = some mn →
        (calculatePriceStatsMedian prices).median = some md →
        (calculatePriceStatsMedian prices).max = some mx →
        mn.currency = md.currency ∧ md.currency = mx.currency) ∧
      ((calculatePriceStatsLowest prices).min = some mn →
        (calculatePriceStatsLowest prices).median = some md →
        (calculatePriceStatsLowest prices).max = some mx →
        mn.currency = md.currency ∧ md.currency = mx.currency)) ∧
    (∀ (prices : List PriceObs) (mn md mx : PriceObs),
      (∀ q ∈ prices, ∃ z : ℤ, q.amount = (z : ℚ)) →
      ((calculatePriceStatsMedian prices).min = some mn →
        (calculatePriceStatsMedian prices).median = some md →
        (calculatePriceStatsMedian prices).max = some mx →
        mn.amount ≤ md.amount ∧ md.amount ≤ mx.amount) ∧
      ((calculatePriceStatsLowest prices).min = some mn →
        (calculatePriceStatsLowest prices).median = some md →
        (calculatePriceStatsLowest prices).max = some mx →
        mn.amount ≤ md.amount ∧ md.amount ≤ mx.amount)) := by
  constructor
  · intro prices mn md mx
    constructor
    · intro hmn hmd hmx
      obtain ⟨-, a0, aN, m, -, -, -, hmneq, hmdeq, hmxeq⟩ :=
        calcMedian_fields hmn hmd hmx
      rw [hmneq, hmdeq, hmxeq]
      exact ⟨rfl, rfl⟩
    · intro hmn hmd hmx
      obtain ⟨h, m, h0, hN, -, hmdeq⟩ := calcLowest_fields hmn hmd hmx
      have hmnc := (mem_lowestSorted (List.getElem?_mem h0)).2
      have hmxc := (mem_lowestSorted (List.getElem?_mem hN)).2
      rw [hmdeq, hmnc, hmxc]
      exact ⟨rfl, rfl⟩
  · intro prices mn md mx hint
    constructor
    · intro hmn hmd hmx
      obtain ⟨h, a0, aN, m, h0, hN, hm, hmneq, hmdeq, hmxeq⟩ :=
        calcMedian_fields hmn hmd hmx
      obtain ⟨hb1, hb2⟩ := medianAmountOf_bounds (medianKept_sorted prices) h0 hN hm
      obtain ⟨q0, hq0, hq0a⟩ := mem_medianKept (List.getElem?_mem h0)
      obtain ⟨qN, hqN, hqNa⟩ := mem_medianKept (List.getElem?_mem hN)
      obtain ⟨z0, hz0⟩ := hint q0 hq0
      obtain ⟨zN, hzN⟩ := hint qN hqN
      have hr := jsRound_bounds z0 zN
        (by rw [← hq0a, hz0]) (by rw [← hqNa, hzN]) hb1 hb2
      rw [hmneq, hmdeq, hmxeq]
      exact hr
    · intro hmn hmd hmx
      obtain ⟨h, m, h0, hN, hm, hmdeq⟩ := calcLowest_fields hmn hmd hmx
      have hsorted : ((lowestSorted prices).map (fun p => p.amount)).Sorted
          (fun a b => a ≤ b) :=
        List.pairwise_map.mpr (lowestSorted_sorted prices)
      have h0m : ((lowestSorted prices).map (fun p => p.amount))[0]? = some mn.amount := by
        rw [List.getElem?_map, h0]
        rfl
      have hNm : ((lowestSorted prices).map (fun p => p.amount))[
          ((lowestSorted prices).map (fun p => p.amount)).length - 1]? = some mx.amount := by
        rw [List.length_map, List.getElem?_map, hN]
        rfl
      obtain ⟨hb1, hb2⟩ := medianAmountOf_bounds hsorted h0m hNm hm
      obtain ⟨z0, hz0⟩ := hint mn (mem_lowestSorted (List.getElem?_mem h0)).1
      obtain ⟨zN, hzN⟩ := hint mx (mem_lowestSorted (List.getElem?_mem hN)).1
      have hr := jsRound_bounds z0 zN hz0 hzN hb1 hb2
      rw [hmdeq]
      exact hr

/-- C10 witness: the amended invariant at the concrete integer sample
[1 c, 2 c], where the median is round((1+2)/2) = 2. -/
theorem claim10_witness :
    (calculatePriceStatsMedian [⟨1, "c"⟩, ⟨2, "c"⟩]).min = some ⟨1, "c"⟩ ∧
    ("c" : String) = "c" ∧ (1 : ℚ) ≤ 2 ∧ (2 : ℚ) ≤ 2 := by
  have h : ([⟨1, "c"⟩, ⟨2, "c"⟩] : List PriceObs) ≠ [] := by simp
  have hd : dominantMedian (buckets [⟨1, "c"⟩, ⟨2, "c"⟩]) = "c" := by decide
  have hk : medianKept [⟨1, "c"⟩, ⟨2, "c"⟩] = [1, 2] := by
    rw [medianKept_filter_form, trimmedAmounts_eq, hd]
    decide
  have hm : medianAmountOf [(1 : ℚ), 2] = some (3/2) := by
    simp [medianAmountOf]
    norm_num
  have hmin : (calculatePriceStatsMedian [⟨1, "c"⟩, ⟨2, "c"⟩]).min = some ⟨1, "c"⟩ := by
    rw [calcMedian_eq _ h, hk, hd]
    rfl
  have hmed : (calculatePriceStatsMedian [⟨1, "c"⟩, ⟨2, "c"⟩]).median = some ⟨2, "c"⟩ := by
    rw [calcMedian_eq _ h, hk, hd, hm]
    simp [jsRound_threeHalves]
  have hmax : (calculatePriceStatsMedian [⟨1, "c"⟩, ⟨2, "c"⟩]).max = some ⟨2, "c"⟩ := by
    rw [calcMedian_eq _ h, hk, hd]
    rfl
  have hcur := ((claim10_theorem.1 [⟨1, "c"⟩, ⟨2, "c"⟩] ⟨1, "c"⟩ ⟨2, "c"⟩ ⟨2, "c"⟩).1
    hmin hmed hmax).1
  have hord := ((claim10_theorem.2 [⟨1, "c"⟩, ⟨2, "c"⟩] ⟨1, "c"⟩ ⟨2, "c"⟩ ⟨2, "c"⟩
    (by
      intro q hq
      rcases List.mem_cons.mp hq with rfl | hq
      · exact ⟨1, by norm_num⟩
      · rcases List.mem_cons.mp hq with rfl | hq
        · exact ⟨2, by norm_num⟩
        · simp at hq)).1
    hmin hmed hmax)
  exact ⟨hmin, hcur, hord.1, hord.2⟩

end Poe
